import Mathlib

/-!
Shallow embedding of the sales-reporting dashboard of this repository
(src/DSA_erp.py) and of the singleton logger (src/Singleton.py).

Conventions of the embedding:

* A pandas scalar cell is a `Cell`: a text value, a numeric value (int64 and
  float64 are both embedded as exact rationals), a datetime value, or the
  missing marker `na` (NaN / NaT).
* A `Dataset` (pandas DataFrame) is an ordered list of named columns.
* Fallible operations return `Except PyErr`; `PyErr.missingColumn` embeds the
  `KeyError` pandas raises when a required column is absent (the error kind the
  specification calls `MissingColumn`).
* Machine floats are embedded as exact rationals (and, where a square root is
  required, as reals); float rounding is outside the model.
* Python string parsing (`float(...)`) is embedded for plain decimal literals
  with an optional sign and an optional fractional part; scientific notation
  and the `inf`/`nan` literals are outside the model.
* `pd.to_datetime` is embedded for cells that are already datetimes, for
  ISO `YYYY-MM-DD` strings, and for the missing marker (which pandas maps to
  `NaT`, not an error); other date formats are outside the model.
-/

/-- A pandas scalar cell: text, a number, a datetime (year, month, day), or
the missing-value marker (NaN / NaT). -/
inductive Cell where
  | str (s : String)
  | num (q : ℚ)
  | date (y m d : ℕ)
  | na
deriving DecidableEq, Repr

/-- Errors raised by the embedded pandas operations.  `missingColumn` is the
`KeyError` raised when a column is looked up and absent (the kind the spec
calls `MissingColumn`); `valueErr` is a parse failure (`pd.to_datetime` on an
unparseable non-null string); `typeErr` is an aggregation applied to a column
whose cells do not support it; `runtimeErr` embeds `RuntimeError`. -/
inductive PyErr where
  | missingColumn (col : String)
  | valueErr (s : String)
  | typeErr (s : String)
  | runtimeErr (s : String)
deriving DecidableEq, Repr

instance {ε α} [DecidableEq ε] [DecidableEq α] : DecidableEq (Except ε α) :=
  fun x y =>
    match x, y with
    | .ok a, .ok b => decidable_of_iff (a = b) (by simp)
    | .error e, .error f => decidable_of_iff (e = f) (by simp)
    | .ok _, .error _ => isFalse (by simp)
    | .error _, .ok _ => isFalse (by simp)

/-- A DataFrame: an ordered list of named columns. -/
abbrev Dataset := List (String × List Cell)

/-- Column lookup, `data[c]`: the first column named `c`, or the `KeyError`
pandas raises when the column is absent. -/
def getCol (d : Dataset) (c : String) : Except PyErr (List Cell) :=
  match d.find? (fun p => p.1 = c) with
  | some p => .ok p.2
  | none => .error (.missingColumn c)

/-- `data.columns`. -/
def colNames (d : Dataset) : List String := d.map Prod.fst

/-- True when the dataset has a column named `c`. -/
def hasCol (d : Dataset) (c : String) : Bool := d.any (fun p => p.1 = c)

/-- Column assignment, `data[c] = col`: replaces the column in place when it
exists and appends a new column otherwise (pandas `__setitem__`). -/
def setCol (d : Dataset) (c : String) (col : List Cell) : Dataset :=
  if hasCol d c then d.map (fun p => if p.1 = c then (c, col) else p)
  else d ++ [(c, col)]

/-- Effectful column map (`Series.apply` / elementwise `pd.to_datetime`):
first failure aborts, as in pandas with `errors` left at `raise`. -/
def mapE (f : α → Except PyErr β) : List α → Except PyErr (List β)
  | [] => .ok []
  | a :: l => do
      let b ← f a
      let r ← mapE f l
      .ok (b :: r)

/-- Numeric digits of a character list read in base 10 (the list is assumed to
consist of digits; non-digit positions contribute their code point offset). -/
def digitsVal (cs : List Char) : ℕ :=
  cs.foldl (fun a c => a * 10 + (c.toNat - 48)) 0

/-- Whitespace trimming on a character list (Python `str.strip` /
the trimming `float(...)` itself performs). -/
def trimChars (cs : List Char) : List Char :=
  ((cs.dropWhile Char.isWhitespace).reverse.dropWhile Char.isWhitespace).reverse

/-- Unsigned decimal literal: digits with at most one point and at least one
digit overall (`"12"`, `"12."`, `".5"`, `"3.25"`). -/
def pyFloatAux (cs : List Char) : Option ℚ :=
  let ip := cs.takeWhile (fun c => c ≠ '.')
  match cs.dropWhile (fun c => c ≠ '.') with
  | [] =>
      if ip ≠ [] ∧ ip.all Char.isDigit then some (digitsVal ip) else none
  | c :: fp =>
      if c = '.' ∧ ip ++ fp ≠ [] ∧ ip.all Char.isDigit ∧ fp.all Char.isDigit then
        some ((digitsVal ip : ℚ) + (digitsVal fp : ℚ) / (10 : ℚ) ^ fp.length)
      else none

/-- Python `float(str)` on the embedded literal subset: trims whitespace and
parses an optionally signed decimal literal; `none` is the `ValueError` branch
(which `convert_currency` turns into NaN). -/
def pyFloat (cs : List Char) : Option ℚ :=
  match trimChars cs with
  | '-' :: rest => (pyFloatAux rest).map (fun q => -q)
  | '+' :: rest => pyFloatAux rest
  | rest => pyFloatAux rest

/-- `val.replace(',', '').replace('$', '')`: both patterns are single
characters, so the two sequential replacements delete exactly the commas and
dollar signs. -/
def cleanCurrency (cs : List Char) : List Char :=
  cs.filter (fun c => c ≠ ',' ∧ c ≠ '$')

/-- Embeds `convert_currency` from `CorrelationAnalysis.process_data`
(src/DSA_erp.py lines 87-94).  On a string cell it deletes commas and dollar
signs, returns NaN for a blank or `"-"` remainder, and otherwise parses with
`float`, with any `ValueError` recovered as NaN.  On every non-string cell the
attribute lookup `val.replace` raises (floats, ints and timestamps have no
two-string `replace`), the `except` arm catches it, and the result is NaN. -/
def convert_currency (v : Cell) : Cell :=
  match v with
  | .str s =>
      let cs := cleanCurrency s.toList
      if trimChars cs = [] ∨ trimChars cs = ['-'] then .na
      else
        match pyFloat cs with
        | some q => .num q
        | none => .na
  | _ => .na

/-- The numeric content of a cell, when the cell is already a number. -/
def numericValue (v : Cell) : Option ℚ :=
  match v with
  | .num q => some q
  | _ => none

/-- Split a character list at every dash (`str.split('-')` on the pieces an
ISO date is made of). -/
def splitDash : List Char → List (List Char)
  | [] => [[]]
  | c :: rest =>
      let r := splitDash rest
      if c = '-' then [] :: r
      else (c :: r.headD []) :: r.tail

/-- A nonempty all-digit character group read as a number. -/
def natOfDigits? (cs : List Char) : Option ℕ :=
  if cs ≠ [] ∧ cs.all Char.isDigit then some (digitsVal cs) else none

/-- Embeds `pd.to_datetime` on one cell: datetimes pass through, the missing
marker becomes `NaT` (`none`, not an error), an ISO `YYYY-MM-DD` string is
parsed, and any other value raises `ValueError` (pandas default
`errors` behaviour). -/
def toDatetime (v : Cell) : Except PyErr (Option (ℕ × ℕ × ℕ)) :=
  match v with
  | .date y m d => .ok (some (y, m, d))
  | .na => .ok none
  | .str s =>
      match splitDash s.toList with
      | [ys, ms, ds] =>
          match natOfDigits? ys, natOfDigits? ms, natOfDigits? ds with
          | some y, some m, some d =>
              if 1 ≤ m ∧ m ≤ 12 ∧ 1 ≤ d ∧ d ≤ 31 then .ok (some (y, m, d))
              else .error (.valueErr s)
          | _, _, _ => .error (.valueErr s)
      | _ => .error (.valueErr s)
  | .num _ => .error (.valueErr "to_datetime")

/-- The cell stored back into the mutated `Date` column for one parsed value
(`NaT` is stored as the missing marker). -/
def datetimeCell (t : Option (ℕ × ℕ × ℕ)) : Cell :=
  match t with
  | some (y, m, d) => .date y m d
  | none => .na

/-- Reads a cell of a column being summed: numbers are kept, the missing
marker is skipped (pandas `sum` skips NaN), and any other cell type is a
`TypeError` in the embedding (mixed-type pandas aggregation is outside the
model). -/
def cellOptNum (v : Cell) : Except PyErr (Option ℚ) :=
  match v with
  | .num q => .ok (some q)
  | .na => .ok none
  | _ => .error (.typeErr "non-numeric cell in numeric aggregation")

/-- `Series.sum()` on a column: the sum of its numeric cells, skipping
missing values (pandas default `skipna`). -/
def numColSum (col : List Cell) : ℚ :=
  (col.filterMap numericValue).sum

/-- Year-month lexicographic order used by `groupby` on `(Year, Month)` keys
(pandas sorts group keys ascending by default). -/
def ymLe (a b : ℕ × ℕ) : Prop := a.1 < b.1 ∨ (a.1 = b.1 ∧ a.2 ≤ b.2)

instance : DecidableRel ymLe := fun a b => by unfold ymLe; infer_instance

instance : IsTotal (ℕ × ℕ) ymLe :=
  ⟨by
    intro a b
    unfold ymLe
    rcases Nat.lt_trichotomy a.1 b.1 with h | h | h
    · exact Or.inl (Or.inl h)
    · rcases Nat.le_total a.2 b.2 with h2 | h2
      · exact Or.inl (Or.inr ⟨h, h2⟩)
      · exact Or.inr (Or.inr ⟨h.symm, h2⟩)
    · exact Or.inr (Or.inl h)⟩

instance : IsTrans (ℕ × ℕ) ymLe :=
  ⟨by
    intro a b c hab hbc
    unfold ymLe at *
    rcases hab with h | ⟨h1, h2⟩
    · rcases hbc with h' | ⟨h1', _⟩
      · exact Or.inl (h.trans h')
      · exact Or.inl (h1' ▸ h)
    · rcases hbc with h' | ⟨h1', h2'⟩
      · exact Or.inl (h1 ▸ h')
      · exact Or.inr ⟨h1.trans h1', h2.trans h2'⟩⟩

/-- The `(year, month)` grouping key of each parsed date
(`data['Date'].dt.year` and `.dt.month`; `NaT` gives a missing key). -/
def ymKeys (dates : List (Option (ℕ × ℕ × ℕ))) : List (Option (ℕ × ℕ)) :=
  dates.map (fun t => t.map (fun x => (x.1, x.2.1)))

/-- The distinct group keys of a `groupby` over `(year, month)` pairs: rows
whose key is `NaT` are dropped (pandas drops missing group keys), duplicates
collapse, and the keys are sorted ascending (pandas default `sort`). -/
def ymGroups (keys : List (Option (ℕ × ℕ))) : List (ℕ × ℕ) :=
  List.insertionSort ymLe (keys.filterMap id).dedup

/-- The `(key, value)` rows that contribute to group sums: a row contributes
exactly when its group key is present and its summed value is non-missing. -/
def keyedVals (keys : List (Option (ℕ × ℕ))) (vals : List (Option ℚ)) :
    List ((ℕ × ℕ) × ℚ) :=
  (keys.zip vals).filterMap (fun p => p.1.bind (fun k => p.2.map (fun v => (k, v))))

/-- The group sum at one key (pandas `groupby(...)[col].sum()`, which skips
missing values and returns `0` for a group whose values are all missing). -/
def sumAtKey (rows : List ((ℕ × ℕ) × ℚ)) (k : ℕ × ℕ) : ℚ :=
  ((rows.filter (fun r => r.1 = k)).map Prod.snd).sum

/-- Embeds `SalesTrendsOverTime.process_data` (src/DSA_erp.py lines 44-58).
The result pairs the returned dataset with the caller-visible state of the
input after the documented in-place `Date` normalization. -/
def SalesTrendsOverTime.process_data (data : Dataset) :
    Except PyErr (Dataset × Dataset) := do
  let dcol ← getCol data "Date"
  let dates ← mapE toDatetime dcol
  let data1 := setCol data "Date" (dates.map datetimeCell)
  let scol ← getCol data1 "Sales"
  let sales ← mapE cellOptNum scol
  let keys := ymKeys dates
  let gs := ymGroups keys
  let rows := keyedVals keys sales
  let out : Dataset :=
    [ ("Date", gs.map (fun k => Cell.date k.1 k.2 1)),
      ("Year", gs.map (fun k => Cell.num k.1)),
      ("Month", gs.map (fun k => Cell.num k.2)),
      ("TotalSales", gs.map (fun k => Cell.num (sumAtKey rows k))) ]
  return (out, data1)

/-- Order used by `groupby` when sorting categorical (cell) keys; only its
decidability matters for the claims (no claim constrains the row order of the
categorical group-bys). -/
def cellLe (a b : Cell) : Prop :=
  match a, b with
  | .na, _ => True
  | .num _, .na => False
  | .num x, .num y => x ≤ y
  | .num _, _ => True
  | .str _, .na => False
  | .str _, .num _ => False
  | .str x, .str y => x ≤ y
  | .str _, .date _ _ _ => True
  | .date y1 m1 d1, .date y2 m2 d2 =>
      y1 < y2 ∨ (y1 = y2 ∧ (m1 < m2 ∨ (m1 = m2 ∧ d1 ≤ d2)))
  | .date _ _ _, _ => False

instance : DecidableRel cellLe := fun a b => by
  cases a <;> cases b <;> dsimp only [cellLe] <;> infer_instance

/-- The distinct group keys of a categorical `groupby`: missing keys are
dropped, duplicates collapse, keys sorted. -/
def cellGroups (keys : List Cell) : List Cell :=
  List.insertionSort cellLe (keys.filter (fun c => c ≠ .na)).dedup

/-- The `(key, value)` rows contributing to a categorical group sum. -/
def cellKeyedVals (keys : List Cell) (vals : List (Option ℚ)) :
    List (Cell × ℚ) :=
  (keys.zip vals).filterMap
    (fun p => if p.1 = .na then none else p.2.map (fun v => (p.1, v)))

/-- The categorical group sum at one key. -/
def cellSumAtKey (rows : List (Cell × ℚ)) (k : Cell) : ℚ :=
  ((rows.filter (fun r => r.1 = k)).map Prod.snd).sum

/-- Embeds `ProfitAnalysisByCountry.process_data` (src/DSA_erp.py lines
61-63): `data.groupby('Country')['Profit'].sum().reset_index()`. -/
def ProfitAnalysisByCountry.process_data (data : Dataset) :
    Except PyErr (Dataset × Dataset) := do
  let ccol ← getCol data "Country"
  let pcol ← getCol data "Profit"
  let profit ← mapE cellOptNum pcol
  let gs := cellGroups ccol
  let rows := cellKeyedVals ccol profit
  let out : Dataset :=
    [ ("Country", gs),
      ("Profit", gs.map (fun k => Cell.num (cellSumAtKey rows k))) ]
  return (out, data)

/-- Embeds `ProductPerformance.process_data` (src/DSA_erp.py lines 65-67):
`data.groupby('Product')[['Sales', 'Profit']].sum().reset_index()`. -/
def ProductPerformance.process_data (data : Dataset) :
    Except PyErr (Dataset × Dataset) := do
  let ccol ← getCol data "Product"
  let scol ← getCol data "Sales"
  let pcol ← getCol data "Profit"
  let sales ← mapE cellOptNum scol
  let profit ← mapE cellOptNum pcol
  let gs := cellGroups ccol
  let srows := cellKeyedVals ccol sales
  let prows := cellKeyedVals ccol profit
  let out : Dataset :=
    [ ("Product", gs),
      ("Sales", gs.map (fun k => Cell.num (cellSumAtKey srows k))),
      ("Profit", gs.map (fun k => Cell.num (cellSumAtKey prows k))) ]
  return (out, data)

/-- Embeds `DiscountImpactOnSales.process_data` (src/DSA_erp.py lines 69-71):
the pass-through projection `data[['Discount Band', 'Sales', 'Profit']]`. -/
def DiscountImpactOnSales.process_data (data : Dataset) :
    Except PyErr (Dataset × Dataset) := do
  let dcol ← getCol data "Discount Band"
  let scol ← getCol data "Sales"
  let pcol ← getCol data "Profit"
  let out : Dataset :=
    [("Discount Band", dcol), ("Sales", scol), ("Profit", pcol)]
  return (out, data)

/-- Embeds `CountryWiseSalesDistribution.process_data` (src/DSA_erp.py lines
79-81): `data.groupby('Country')['Sales'].sum().reset_index()`. -/
def CountryWiseSalesDistribution.process_data (data : Dataset) :
    Except PyErr (Dataset × Dataset) := do
  let ccol ← getCol data "Country"
  let scol ← getCol data "Sales"
  let sales ← mapE cellOptNum scol
  let gs := cellGroups ccol
  let rows := cellKeyedVals ccol sales
  let out : Dataset :=
    [ ("Country", gs),
      ("Sales", gs.map (fun k => Cell.num (cellSumAtKey rows k))) ]
  return (out, data)

/-- The seven columns required by `CorrelationAnalysis` (src/DSA_erp.py
line 97). -/
def corrCols : List String :=
  ["Units Sold", "Manufacturing Price", "Sale Price", "Gross Sales",
   "Discounts", "Sales", "Profit"]

/-- The pairwise-complete observations of two normalized columns: the rows
where both cells are non-missing (pandas `nancorr` skips a row for a pair
exactly when either of the two values is NaN). -/
def vpairs (xs ys : List (Option ℚ)) : List (ℚ × ℚ) :=
  (xs.zip ys).filterMap
    (fun p => p.1.bind (fun a => p.2.map (fun b => (a, b))))

/-- Mean of the first components of the complete observations. -/
def meanFst (ps : List (ℚ × ℚ)) : ℚ := (ps.map Prod.fst).sum / ps.length

/-- Mean of the second components of the complete observations. -/
def meanSnd (ps : List (ℚ × ℚ)) : ℚ := (ps.map Prod.snd).sum / ps.length

/-- Centered cross sum `sum of (x - mean x) * (y - mean y)`; in exact
arithmetic this equals the value the Welford recurrence in pandas `nancorr`
accumulates. -/
def covSum (ps : List (ℚ × ℚ)) : ℚ :=
  (ps.map (fun p => (p.1 - meanFst ps) * (p.2 - meanSnd ps))).sum

/-- Centered square sum of the first components. -/
def varFst (ps : List (ℚ × ℚ)) : ℚ :=
  (ps.map (fun p => (p.1 - meanFst ps) ^ 2)).sum

/-- Centered square sum of the second components. -/
def varSnd (ps : List (ℚ × ℚ)) : ℚ :=
  (ps.map (fun p => (p.2 - meanSnd ps) ^ 2)).sum

/-- One entry of `DataFrame.corr()` (pandas `nancorr`, Pearson, default
`min_periods`): `NaN` when the pair has no complete observation or when the
divisor `sqrt(varx * vary)` is zero, and otherwise the centered cross sum over
that divisor.  Over the reals the divisor is zero exactly when the rational
product `varFst * varSnd` is zero, which is the computable branch condition
used here.  (Recent pandas additionally clips the quotient to `[-1, 1]`
against float rounding; in exact arithmetic the quotient is already in that
interval, so the clip is the identity and is omitted.) -/
noncomputable def corrEntry (xs ys : List (Option ℚ)) : Option ℝ :=
  let ps := vpairs xs ys
  if ps.length = 0 then none
  else if varFst ps * varSnd ps = 0 then none
  else some ((covSum ps : ℝ) / Real.sqrt ((varFst ps : ℝ) * (varSnd ps : ℝ)))

/-- The full correlation matrix of a list of normalized columns, row-major. -/
noncomputable def corrMatrix (cols : List (List (Option ℚ))) :
    List (List (Option ℝ)) :=
  cols.map (fun x => cols.map (fun y => corrEntry x y))

/-- The square matrix dataset returned by `CorrelationAnalysis`: indexed and
columned by the same seven names, with real-or-missing entries. -/
structure CorrOut where
  names : List String
  rows : List (List (Option ℝ))

/-- Entry `(i, j)` of a correlation output (row label `i`, column label `j`). -/
def entryAt (m : CorrOut) (i j : ℕ) : Option ℝ :=
  (m.rows.getD i []).getD j none

/-- The normalized numeric content of a converted cell (`convert_currency`
only ever returns a number or the missing marker). -/
def cellToOpt (v : Cell) : Option ℚ :=
  match v with
  | .num q => some q
  | _ => none

/-- A column after the in-place `apply(convert_currency)`. -/
def convertCol (col : List Cell) : List Cell := col.map convert_currency

/-- The state of the input dataset after the loop
`for col in [...]: data[col] = data[col].apply(convert_currency)`.
The seven column names are distinct, so writing the columns one by one reads
and writes independent columns; the embedding folds the writes over the
already-extracted columns. -/
def corrMutated (data : Dataset) (conv : List (List Cell)) : Dataset :=
  (corrCols.zip conv).foldl (fun d p => setCol d p.1 p.2) data

/-- Embeds `CorrelationAnalysis.process_data` (src/DSA_erp.py lines 84-100):
converts the seven currency columns in place, then returns
`data[corrCols].corr()` together with the mutated input state. -/
noncomputable def CorrelationAnalysis.process_data (data : Dataset) :
    Except PyErr (CorrOut × Dataset) := do
  let cols ← mapE (getCol data) corrCols
  let conv := cols.map convertCol
  let oc := conv.map (fun c => c.map cellToOpt)
  return (⟨corrCols, corrMatrix oc⟩, corrMutated data conv)

/-- One rendered row of the dash table (`derived_virtual_data` is a list of
records, one association list per displayed row). -/
abbrev Row := List (String × Cell)

/-- The column labels of `pd.DataFrame(rows)`: the union of the record keys in
order of first appearance. -/
def unionKeys (rs : List Row) : List String :=
  ((rs.map (fun r => r.map Prod.fst)).flatten).dedup

/-- The value a record contributes to a frame column (a record without the key
gets NaN). -/
def rowLookup (r : Row) (c : String) : Cell :=
  match r.find? (fun p => p.1 = c) with
  | some p => p.2
  | none => .na

/-- Column `c` of `pd.DataFrame(rows)`: the per-row values when the label
exists, and the `KeyError` pandas raises otherwise (in particular
`pd.DataFrame([])` has no columns at all, so every lookup on it raises). -/
def dffCol (rs : List Row) (c : String) : Except PyErr (List Cell) :=
  if c ∈ unionKeys rs then .ok (rs.map (fun r => rowLookup r c))
  else .error (.missingColumn c)

/-- The dtype test `dff[column].dtype in ['float64', 'int64']`: a record
column is int64 or float64 exactly when every value is a number or NaN
(a NaN makes it float64; any text or datetime makes it object or
datetime64, which the callback skips). -/
def numericDtype (vals : List Cell) : Bool :=
  vals.all (fun v => match v with
    | .num _ => true
    | .na => true
    | _ => false)

/-- One line series of the dynamic chart: its name, its x values (the frame
index `0..n-1`) and its y values. -/
structure Series where
  name : String
  xs : List ℕ
  ys : List Cell
deriving DecidableEq, Repr

/-- The series-building loop of `update_dynamic_chart`: walks the selected
columns in order, raises on a column absent from the frame, and keeps one
line series per numeric-dtype column. -/
def buildSeries (rs : List Row) : List String → Except PyErr (List Series)
  | [] => .ok []
  | c :: cs => do
      let vals ← dffCol rs c
      let rest ← buildSeries rs cs
      return (if numericDtype vals then
                ⟨c, List.range rs.length, vals⟩ :: rest
              else rest)

/-- Embeds `update_dynamic_chart` (src/DSA_erp.py lines 218-244): `none` rows
(the table not yet rendered) and an absent or empty column selection each
yield the empty series set; otherwise the selected columns are scanned. -/
def update_dynamic_chart (rows : Option (List Row))
    (sel : Option (List String)) : Except PyErr (List Series) :=
  match rows with
  | none => .ok []
  | some rs =>
      match sel with
      | none => .ok []
      | some cs => if cs.isEmpty then .ok [] else buildSeries rs cs

/-- The class-level state of `Logger` (src/Singleton.py): the memoized
`_instance` field, plus an allocation counter standing for the address of the
next fresh object `cls.__new__(cls)` would return (distinct addresses model
distinct objects). -/
structure LoggerState where
  inst : Option ℕ
  next : ℕ
deriving DecidableEq, Repr

/-- Embeds `Logger.instance()` (src/Singleton.py lines 7-13): allocates and
memoizes a fresh object on the first call, returns the memoized object
afterwards.  `cls.__new__(cls)` bypasses `__init__`, so no call of
`instance()` raises. -/
def Logger.instanceCall (s : LoggerState) : ℕ × LoggerState :=
  match s.inst with
  | none => (s.next, ⟨some s.next, s.next + 1⟩)
  | some o => (o, s)

/-- The result of the `k`-th `Logger.instance()` call (0-based) in a run that
starts from state `s` and calls `instance()` repeatedly. -/
def Logger.nthOutput (s : LoggerState) : ℕ → ℕ
  | 0 => (Logger.instanceCall s).1
  | k + 1 => Logger.nthOutput (Logger.instanceCall s).2 k

/-- Embeds `Logger.__init__` (src/Singleton.py lines 4-5): a direct
constructor call `Logger()` unconditionally raises `RuntimeError`. -/
def Logger.init : Except PyErr ℕ :=
  .error (.runtimeErr "Call instance() instead")

/-! ## Helper lemmas -/

theorem exceptBind_ok (a : α) (f : α → Except PyErr β) :
    (Except.ok a >>= f) = f a := rfl

theorem exceptBind_error (e : PyErr) (f : α → Except PyErr β) :
    ((Except.error e : Except PyErr α) >>= f) = .error e := rfl

theorem exceptBind_ok_iff {x : Except PyErr α} {f : α → Except PyErr β}
    {b : β} : (x >>= f) = .ok b ↔ ∃ a, x = .ok a ∧ f a = .ok b := by
  cases x with
  | ok a => simp [exceptBind_ok]
  | error e => simp [exceptBind_error]

theorem mapE_nil (f : α → Except PyErr β) : mapE f [] = .ok [] := rfl

theorem mapE_cons (f : α → Except PyErr β) (a : α) (l : List α) :
    mapE f (a :: l) =
      (f a >>= fun b => mapE f l >>= fun r => .ok (b :: r)) := rfl

theorem mapE_ok_length {f : α → Except PyErr β} {l : List α} {r : List β}
    (h : mapE f l = .ok r) : r.length = l.length := by
  induction l generalizing r with
  | nil => simp [mapE] at h; simp [← h]
  | cons a l ih =>
      rw [mapE_cons, exceptBind_ok_iff] at h
      obtain ⟨b, _, h2⟩ := h
      rw [exceptBind_ok_iff] at h2
      obtain ⟨r0, hr0, h3⟩ := h2
      cases h3
      simp [ih hr0]

theorem digit_toNat_0 : '0'.toNat = 48 := rfl
theorem digit_toNat_1 : '1'.toNat = 49 := rfl
theorem digit_toNat_2 : '2'.toNat = 50 := rfl
theorem digit_toNat_3 : '3'.toNat = 51 := rfl
theorem digit_toNat_4 : '4'.toNat = 52 := rfl
theorem digit_toNat_5 : '5'.toNat = 53 := rfl
theorem digit_toNat_6 : '6'.toNat = 54 := rfl
theorem digit_toNat_7 : '7'.toNat = 55 := rfl
theorem digit_toNat_8 : '8'.toNat = 56 := rfl
theorem digit_toNat_9 : '9'.toNat = 57 := rfl

theorem pyFloatAux_nil : pyFloatAux [] = none := rfl

theorem pyFloat_of_trim_nil {cs : List Char} (h : trimChars cs = []) :
    pyFloat cs = none := by
  unfold pyFloat
  rw [h]
  rfl

theorem pyFloat_of_trim_dash {cs : List Char} (h : trimChars cs = ['-']) :
    pyFloat cs = none := by
  unfold pyFloat
  rw [h]
  rfl

theorem logger_inst_after_call (s : LoggerState) :
    ((Logger.instanceCall s).2).inst = some (Logger.instanceCall s).1 := by
  rcases s with ⟨inst, next⟩
  cases inst <;> rfl

theorem logger_call_memoized {s : LoggerState} {o : ℕ} (h : s.inst = some o) :
    Logger.instanceCall s = (o, s) := by
  rcases s with ⟨inst, next⟩
  cases inst with
  | none => cases h
  | some o' => cases h; rfl

theorem logger_nthOutput_const (n : ℕ) (s : LoggerState) :
    Logger.nthOutput s n = (Logger.instanceCall s).1 := by
  induction n generalizing s with
  | zero => rfl
  | succ n ih =>
      show Logger.nthOutput (Logger.instanceCall s).2 n = _
      rw [ih]
      rw [logger_call_memoized (logger_inst_after_call s)]

/-- C10: `Logger.instance()` returns the identical object on every call (in
any run of repeated calls from any class state, all calls return the same
object id), and a direct constructor call always raises `RuntimeError`, so a
`Logger` object is only obtainable through `instance()`. -/
theorem C10_logger_singleton :
    (∀ (s : LoggerState) (n m : ℕ),
        Logger.nthOutput s n = Logger.nthOutput s m)
    ∧ Logger.init = .error (.runtimeErr "Call instance() instead") := by
  constructor
  · intro s n m
    rw [logger_nthOutput_const, logger_nthOutput_const]
  · rfl

/-- C9: invoking the dynamic-chart recompute before the table has rendered
(`derived_virtual_data` still absent) returns the empty series set, never an
error, whatever the column selection is. -/
theorem C9_chart_none_rows_safe :
    ∀ sel : Option (List String),
      update_dynamic_chart none sel = .ok [] := by
  intro sel
  rfl

/-- C1, counterexample to the claim as stated: a cell that is already a
number (pandas would hold `5` in an int64 or float64 column) is not preserved
by `convert_currency` — the attribute access `val.replace` raises on it and
the handler substitutes NaN — even though the claim requires any value that
parses as a number to be preserved as that number. -/
theorem C1_counterexample :
    numericValue (Cell.num 5) = some 5 ∧
    convert_currency (Cell.num 5) = Cell.na :=
  ⟨rfl, rfl⟩

/-- C1, amended: every **string** cell of the seven required columns is
normalized by deleting commas and dollar signs and parsing the rest with
`float`; among string cells exactly the blank, placeholder (`-`) and
unparseable ones become the missing marker, and a string that parses as a
number is preserved as that number.  A cell that is **not** a string (one
already held as a number, a datetime, or missing) always becomes the missing
marker, because the string-stripping step raises on it and the handler
substitutes NaN.  No cell value raises out of the normalization, and no cell
value can make the surrounding aggregation fail. -/
theorem C1_amended :
    (∀ (s : String) (q : ℚ), pyFloat (cleanCurrency s.toList) = some q →
        convert_currency (.str s) = .num q)
    ∧ (∀ s : String, pyFloat (cleanCurrency s.toList) = none →
        convert_currency (.str s) = .na)
    ∧ (∀ q : ℚ, convert_currency (.num q) = .na)
    ∧ (∀ y m d : ℕ, convert_currency (.date y m d) = .na)
    ∧ convert_currency Cell.na = Cell.na
    ∧ (∀ v : Cell, convert_currency v = .na ∨ ∃ q, convert_currency v = .num q)
    ∧ (∀ (data : Dataset) (cols : List (List Cell)),
        mapE (getCol data) corrCols = .ok cols →
        (CorrelationAnalysis.process_data data).isOk = true) := by
  refine ⟨?_, ?_, fun _ => rfl, fun _ _ _ => rfl, rfl, ?_, ?_⟩
  · intro s q h
    have hne : ¬(trimChars (cleanCurrency s.toList) = [] ∨
        trimChars (cleanCurrency s.toList) = ['-']) := by
      rintro (h1 | h1)
      · rw [pyFloat_of_trim_nil h1] at h
        exact Option.noConfusion h
      · rw [pyFloat_of_trim_dash h1] at h
        exact Option.noConfusion h
    simp only [convert_currency, if_neg hne, h]
  · intro s h
    by_cases hg : trimChars (cleanCurrency s.toList) = [] ∨
        trimChars (cleanCurrency s.toList) = ['-']
    · simp only [convert_currency, if_pos hg]
    · simp only [convert_currency, if_neg hg, h]
  · intro v
    cases v with
    | str s =>
        by_cases hg : trimChars (cleanCurrency s.toList) = [] ∨
            trimChars (cleanCurrency s.toList) = ['-']
        · exact Or.inl (by simp only [convert_currency, if_pos hg])
        · cases hq : pyFloat (cleanCurrency s.toList) with
          | none => exact Or.inl (by simp only [convert_currency, if_neg hg, hq])
          | some q =>
              exact Or.inr ⟨q, by simp only [convert_currency, if_neg hg, hq]⟩
    | num q => exact Or.inl rfl
    | date y m d => exact Or.inl rfl
    | na => exact Or.inl rfl
  · intro data cols h
    simp only [CorrelationAnalysis.process_data, h, exceptBind_ok]
    rfl

theorem C1_witness :
    pyFloat (cleanCurrency "$1,234.5".toList) = some 1234.5 ∧
    convert_currency (Cell.str "$1,234.5") = Cell.num 1234.5 := by
  have h : pyFloat (cleanCurrency "$1,234.5".toList) = some 1234.5 := by
    norm_num +decide [pyFloat, pyFloatAux, trimChars, digitsVal, cleanCurrency,
      List.dropWhile, List.takeWhile, List.foldl, List.all, List.filter,
      Char.isWhitespace, digit_toNat_0, digit_toNat_1, digit_toNat_2,
      digit_toNat_3, digit_toNat_4, digit_toNat_5, digit_toNat_6,
      digit_toNat_7, digit_toNat_8, digit_toNat_9]
  exact ⟨h, C1_amended.1 _ _ h⟩

theorem buildSeries_char (rs : List Row) (cs : List String)
    (h : ∀ c ∈ cs, c ∈ unionKeys rs) :
    buildSeries rs cs =
      .ok ((cs.filter
              (fun c => numericDtype (rs.map (fun r => rowLookup r c)))).map
        (fun c => ⟨c, List.range rs.length,
                   rs.map (fun r => rowLookup r c)⟩)) := by
  induction cs with
  | nil => rfl
  | cons c cs ih =>
      have hc : c ∈ unionKeys rs := h c (List.mem_cons_self c cs)
      have hrest := ih (fun x hx => h x (List.mem_cons_of_mem c hx))
      simp only [buildSeries, dffCol, if_pos hc, exceptBind_ok, hrest]
      by_cases hn : numericDtype (rs.map (fun r => rowLookup r c)) = true
      · simp [List.filter_cons, hn, pure, Except.pure]
      · simp [List.filter_cons, hn, pure, Except.pure]

/-- C3, counterexample to the claim as stated: the claim requires an empty
row set to yield an empty series set rather than an error, but on an empty
row list with a nonempty selection the callback builds an empty frame with no
columns and the column lookup raises `KeyError`. -/
theorem C3_counterexample :
    update_dynamic_chart (some []) (some ["Sales"]) =
      .error (.missingColumn "Sales") ∧
    update_dynamic_chart (some []) (some ["Sales"]) ≠ .ok [] := by
  exact ⟨rfl, by decide⟩

/-- C3, amended: the recompute returns one line series per selected column of
numeric runtime type, in selection order, with that column's values keyed by
row position `0..displayed_row_count-1`; non-numeric selected columns are
silently excluded; an absent (not yet rendered) row set or an empty column
selection yields an empty series set; the quoted example yields the single
series `Sales` with values `[10, 20]` at `x = [0, 1]`.  However an **empty
row list** combined with a nonempty selection does not yield an empty series
set: the empty frame has no columns, so the first selected column lookup
raises `KeyError`. -/
theorem C3_amended :
    (∀ sel, update_dynamic_chart none sel = .ok [])
    ∧ (∀ rows, update_dynamic_chart rows none = .ok [])
    ∧ (∀ rows, update_dynamic_chart rows (some []) = .ok [])
    ∧ (∀ (rs : List Row) (cs : List String), cs ≠ [] →
        (∀ c ∈ cs, c ∈ unionKeys rs) →
        update_dynamic_chart (some rs) (some cs) =
          .ok ((cs.filter
                  (fun c => numericDtype (rs.map (fun r => rowLookup r c)))).map
            (fun c => ⟨c, List.range rs.length,
                       rs.map (fun r => rowLookup r c)⟩)))
    ∧ update_dynamic_chart
        (some [[("Sales", Cell.num 10)], [("Sales", Cell.num 20)]])
        (some ["Sales"]) =
        .ok [⟨"Sales", [0, 1], [Cell.num 10, Cell.num 20]⟩]
    ∧ update_dynamic_chart
        (some [[("Name", Cell.str "a")], [("Name", Cell.str "b")]])
        (some ["Name"]) = .ok []
    ∧ update_dynamic_chart (some []) (some ["Sales"]) =
        .error (.missingColumn "Sales") := by
  refine ⟨fun _ => rfl, ?_, ?_, ?_, rfl, rfl, rfl⟩
  · intro rows
    cases rows <;> rfl
  · intro rows
    cases rows <;> rfl
  · intro rs cs hne hmem
    cases cs with
    | nil => exact absurd rfl hne
    | cons c cs' => exact buildSeries_char rs (c :: cs') hmem

theorem C3_witness :
    (["Sales"] : List String) ≠ [] ∧
    (∀ c ∈ (["Sales"] : List String),
        c ∈ unionKeys [[("Sales", Cell.num 10)], [("Sales", Cell.num 20)]]) ∧
    update_dynamic_chart
        (some [[("Sales", Cell.num 10)], [("Sales", Cell.num 20)]])
        (some ["Sales"]) =
      .ok [⟨"Sales", [0, 1], [Cell.num 10, Cell.num 20]⟩] := by
  have hne : (["Sales"] : List String) ≠ [] := by decide
  have hm : ∀ c ∈ (["Sales"] : List String),
      c ∈ unionKeys [[("Sales", Cell.num 10)], [("Sales", Cell.num 20)]] := by
    decide
  exact ⟨hne, hm, (C3_amended.2.2.2.1 _ _ hne hm).trans rfl⟩

theorem list_sum_map_add (l : List κ) (f g : κ → ℚ) :
    (l.map (fun k => f k + g k)).sum = (l.map f).sum + (l.map g).sum := by
  induction l with
  | nil => simp
  | cons a l ih => simp [ih]; ring

theorem list_sum_map_single {κ : Type} [DecidableEq κ] {K : List κ} {a : κ}
    (v : ℚ) (hN : K.Nodup) (ha : a ∈ K) :
    (K.map (fun x => if a = x then v else 0)).sum = v := by
  induction K with
  | nil => cases ha
  | cons b K ih =>
      rcases List.mem_cons.mp ha with h | h
      · subst h
        have hnot : a ∉ K := (List.nodup_cons.mp hN).1
        have hz : (K.map (fun x => if a = x then v else 0)).sum = 0 := by
          apply List.sum_eq_zero
          intro y hy
          rcases List.mem_map.mp hy with ⟨x, hx, hxy⟩
          have : a ≠ x := fun he => hnot (he ▸ hx)
          simp [this] at hxy
          exact hxy.symm
        simp [hz]
      · have hab : a ≠ b := by
          rintro rfl
          exact (List.nodup_cons.mp hN).1 h
        simp [hab, ih (List.nodup_cons.mp hN).2 h]

theorem list_sum_fiber {κ : Type} [DecidableEq κ] (K : List κ)
    (rows : List (κ × ℚ)) (hN : K.Nodup) (hc : ∀ r ∈ rows, r.1 ∈ K) :
    (K.map
        (fun k => ((rows.filter (fun r => r.1 = k)).map Prod.snd).sum)).sum
      = (rows.map Prod.snd).sum := by
  induction rows with
  | nil =>
      simp only [List.filter_nil, List.map_nil, List.sum_nil]
      apply List.sum_eq_zero
      intro y hy
      rcases List.mem_map.mp hy with ⟨x, _, hxy⟩
      exact hxy.symm
  | cons r rows ih =>
      have hsplit : ∀ k : κ,
          (((r :: rows).filter (fun x => x.1 = k)).map Prod.snd).sum
            = (if r.1 = k then r.2 else 0)
              + ((rows.filter (fun x => x.1 = k)).map Prod.snd).sum := by
        intro k
        by_cases h : r.1 = k <;> simp [List.filter_cons, h]
      simp only [hsplit]
      rw [list_sum_map_add]
      rw [ih (fun x hx => hc x (List.mem_cons_of_mem r hx))]
      rw [list_sum_map_single r.2 hN (hc r (List.mem_cons_self r rows))]
      simp

theorem getCol_ok_iff {d : Dataset} {c : String} {col : List Cell} :
    getCol d c = .ok col ↔ d.find? (fun p => p.1 = c) = some (c, col) := by
  unfold getCol
  split
  · rename_i p hf
    have hp : p.1 = c := by simpa using List.find?_some hf
    rw [hf]
    rcases p with ⟨p1, p2⟩
    simp only at hp
    subst hp
    simp
  · rename_i hf
    rw [hf]
    simp

theorem hasCol_of_getCol_ok {d : Dataset} {c : String} {col : List Cell}
    (h : getCol d c = .ok col) : hasCol d c = true := by
  rw [getCol_ok_iff] at h
  unfold hasCol
  rw [List.any_eq_true]
  exact ⟨⟨c, col⟩, List.mem_of_find?_eq_some h, by simp⟩

theorem find?_map_replace (c c' : String) (col : List Cell) (h : c' ≠ c)
    (d : Dataset) :
    (d.map (fun p => if p.1 = c then (c, col) else p)).find?
        (fun p => p.1 = c') = d.find? (fun p => p.1 = c') := by
  induction d with
  | nil => rfl
  | cons p d ih =>
      by_cases h1 : p.1 = c
      · have d1 : (c = c') = False := eq_false fun he => h he.symm
        have d2 : (p.1 = c') = False := eq_false (by
          rw [h1]
          exact fun he => h he.symm)
        simp only [List.map_cons, List.find?_cons, if_pos h1, d1, d2]
        simpa using ih
      · by_cases h2 : p.1 = c'
        · simp only [List.map_cons, List.find?_cons, if_neg h1, eq_true h2]
          simp
        · simp only [List.map_cons, List.find?_cons, if_neg h1,
            eq_false h2]
          simpa using ih

theorem getCol_setCol_ne (d : Dataset) (c c' : String) (col : List Cell)
    (h : c' ≠ c) : getCol (setCol d c col) c' = getCol d c' := by
  unfold setCol
  by_cases hp : hasCol d c
  · simp only [if_pos hp]
    unfold getCol
    rw [find?_map_replace c c' col h d]
  · simp only [if_neg hp]
    unfold getCol
    rw [List.find?_append]
    have hone : ([((c : String), col)].find? (fun p => p.1 = c')) = none := by
      have d1 : (c = c') = False := eq_false fun he => h he.symm
      simp [List.find?_cons, d1]
    rw [hone]
    cases d.find? (fun p => p.1 = c') <;> rfl

theorem colNames_setCol (d : Dataset) (c : String) (col : List Cell)
    (h : hasCol d c = true) : colNames (setCol d c col) = colNames d := by
  unfold setCol colNames
  rw [if_pos h, List.map_map]
  apply List.map_congr_left
  intro p _
  by_cases h1 : p.1 = c <;> simp [h1]

theorem ymGroups_nodup (keys : List (Option (ℕ × ℕ))) :
    (ymGroups keys).Nodup :=
  (List.perm_insertionSort ymLe _).nodup_iff.mpr (List.nodup_dedup _)

theorem ymGroups_sorted (keys : List (Option (ℕ × ℕ))) :
    List.Sorted ymLe (ymGroups keys) :=
  List.sorted_insertionSort ymLe _

theorem mem_ymGroups_iff {keys : List (Option (ℕ × ℕ))} {k : ℕ × ℕ} :
    k ∈ ymGroups keys ↔ some k ∈ keys := by
  unfold ymGroups
  rw [(List.perm_insertionSort ymLe _).mem_iff, List.mem_dedup,
    List.mem_filterMap]
  constructor
  · rintro ⟨a, ha, rfl⟩
    exact ha
  · intro hk
    exact ⟨some k, hk, rfl⟩

theorem keyedVals_key_mem {keys : List (Option (ℕ × ℕ))}
    {sales : List (Option ℚ)} {r : (ℕ × ℕ) × ℚ}
    (h : r ∈ keyedVals keys sales) : some r.1 ∈ keys := by
  unfold keyedVals at h
  rcases List.mem_filterMap.mp h with ⟨p, hp, he⟩
  rcases p with ⟨k, v⟩
  cases k with
  | none => cases he
  | some k' =>
      cases v with
      | none => cases he
      | some q =>
          simp only [Option.bind_some, Option.map_some] at he
          cases he
          exact (List.of_mem_zip hp).1

theorem keyedVals_snd_sum {keys : List (Option (ℕ × ℕ))}
    {sales : List (Option ℚ)} (hv : ∀ k ∈ keys, k ≠ none)
    (hlen : keys.length = sales.length) :
    ((keyedVals keys sales).map Prod.snd).sum = (sales.filterMap id).sum := by
  induction keys generalizing sales with
  | nil =>
      cases sales with
      | nil => rfl
      | cons v sales => simp at hlen
  | cons k keys ih =>
      cases sales with
      | nil => simp at hlen
      | cons v sales =>
          have hk : k ≠ none := hv k (List.mem_cons_self k keys)
          rcases Option.ne_none_iff_exists.mp hk with ⟨k', rfl⟩
          have hv' : ∀ x ∈ keys, x ≠ none :=
            fun x hx => hv x (List.mem_cons_of_mem _ hx)
          have hlen' : keys.length = sales.length := by simpa using hlen
          cases v with
          | none =>
              have hih := ih hv' hlen'
              simp only [keyedVals] at hih
              simpa [keyedVals, List.filterMap_cons] using hih
          | some q =>
              have hih := ih hv' hlen'
              simp only [keyedVals] at hih
              simp [keyedVals, List.filterMap_cons, hih]

theorem mapE_cellOptNum_filter {scol : List Cell} {sales : List (Option ℚ)}
    (h : mapE cellOptNum scol = .ok sales) :
    scol.filterMap numericValue = sales.filterMap id := by
  induction scol generalizing sales with
  | nil =>
      simp only [mapE] at h
      cases h
      rfl
  | cons v scol ih =>
      rw [mapE_cons, exceptBind_ok_iff] at h
      obtain ⟨b, hb, h2⟩ := h
      rw [exceptBind_ok_iff] at h2
      obtain ⟨r0, hr0, h3⟩ := h2
      cases h3
      cases v with
      | num q =>
          simp only [cellOptNum] at hb
          cases hb
          simp [List.filterMap_cons, numericValue, ih hr0]
      | na =>
          simp only [cellOptNum] at hb
          cases hb
          simp [List.filterMap_cons, numericValue, ih hr0]
      | str s => simp [cellOptNum] at hb
      | date y m d => simp [cellOptNum] at hb

theorem salesTrend_process_eq (data : Dataset) (dcol scol : List Cell)
    (dates : List (Option (ℕ × ℕ × ℕ))) (sales : List (Option ℚ))
    (hd : getCol data "Date" = .ok dcol)
    (hdd : mapE toDatetime dcol = .ok dates)
    (hs : getCol (setCol data "Date" (dates.map datetimeCell)) "Sales" =
      .ok scol)
    (hsn : mapE cellOptNum scol = .ok sales) :
    SalesTrendsOverTime.process_data data =
      .ok ([("Date", (ymGroups (ymKeys dates)).map
                (fun k => Cell.date k.1 k.2 1)),
            ("Year", (ymGroups (ymKeys dates)).map (fun k => Cell.num k.1)),
            ("Month", (ymGroups (ymKeys dates)).map (fun k => Cell.num k.2)),
            ("TotalSales", (ymGroups (ymKeys dates)).map
                (fun k => Cell.num
                  (sumAtKey (keyedVals (ymKeys dates) sales) k)))],
           setCol data "Date" (dates.map datetimeCell)) := by
  simp only [SalesTrendsOverTime.process_data, hd, exceptBind_ok, hdd, hs, hsn]
  rfl

/-- C4: Sales Trend Over Time returns the four columns
`[Date, Year, Month, TotalSales]` with `Date` first; its rows are the distinct
`(year, month)` groups of the parsed temporal column, each appearing exactly
once (`Nodup`), in ascending `(Year, Month)` order (`Sorted ymLe`), with
`TotalSales` the group sum of the sales column and `Date` the first of the
month; and the quoted concrete input produces exactly the two quoted rows. -/
theorem C4_sales_trend_over_time :
    (∀ (data : Dataset) (dcol scol : List Cell)
        (dates : List (Option (ℕ × ℕ × ℕ))) (sales : List (Option ℚ)),
      getCol data "Date" = .ok dcol →
      mapE toDatetime dcol = .ok dates →
      getCol (setCol data "Date" (dates.map datetimeCell)) "Sales" =
        .ok scol →
      mapE cellOptNum scol = .ok sales →
        SalesTrendsOverTime.process_data data =
          .ok ([("Date", (ymGroups (ymKeys dates)).map
                    (fun k => Cell.date k.1 k.2 1)),
                ("Year", (ymGroups (ymKeys dates)).map
                    (fun k => Cell.num k.1)),
                ("Month", (ymGroups (ymKeys dates)).map
                    (fun k => Cell.num k.2)),
                ("TotalSales", (ymGroups (ymKeys dates)).map
                    (fun k => Cell.num
                      (sumAtKey (keyedVals (ymKeys dates) sales) k)))],
               setCol data "Date" (dates.map datetimeCell))
        ∧ (ymGroups (ymKeys dates)).Nodup
        ∧ List.Sorted ymLe (ymGroups (ymKeys dates))
        ∧ (∀ k, k ∈ ymGroups (ymKeys dates) ↔ some k ∈ ymKeys dates))
    ∧ SalesTrendsOverTime.process_data
        [("Date", [Cell.str "2020-01-15", Cell.str "2020-01-20",
                   Cell.str "2020-02-05"]),
         ("Sales", [Cell.num 100, Cell.num 50, Cell.num 30])] =
      .ok ([("Date", [Cell.date 2020 1 1, Cell.date 2020 2 1]),
            ("Year", [Cell.num 2020, Cell.num 2020]),
            ("Month", [Cell.num 1, Cell.num 2]),
            ("TotalSales", [Cell.num 150, Cell.num 30])],
           [("Date", [Cell.date 2020 1 15, Cell.date 2020 1 20,
                      Cell.date 2020 2 5]),
            ("Sales", [Cell.num 100, Cell.num 50, Cell.num 30])]) := by
  constructor
  · intro data dcol scol dates sales hd hdd hs hsn
    exact ⟨salesTrend_process_eq data dcol scol dates sales hd hdd hs hsn,
      ymGroups_nodup _, ymGroups_sorted _, fun k => mem_ymGroups_iff⟩
  · have hd : getCol
        [("Date", [Cell.str "2020-01-15", Cell.str "2020-01-20",
                   Cell.str "2020-02-05"]),
         ("Sales", [Cell.num 100, Cell.num 50, Cell.num 30])] "Date" =
        .ok [Cell.str "2020-01-15", Cell.str "2020-01-20",
             Cell.str "2020-02-05"] := by decide
    have hdd : mapE toDatetime
        [Cell.str "2020-01-15", Cell.str "2020-01-20",
         Cell.str "2020-02-05"] =
        .ok [some (2020, 1, 15), some (2020, 1, 20), some (2020, 2, 5)] := by
      decide
    have hs : getCol (setCol
        [("Date", [Cell.str "2020-01-15", Cell.str "2020-01-20",
                   Cell.str "2020-02-05"]),
         ("Sales", [Cell.num 100, Cell.num 50, Cell.num 30])] "Date"
        (([some (2020, 1, 15), some (2020, 1, 20),
           some (2020, 2, 5)] : List (Option (ℕ × ℕ × ℕ))).map datetimeCell))
        "Sales" = .ok [Cell.num 100, Cell.num 50, Cell.num 30] := by decide
    have hsn : mapE cellOptNum [Cell.num 100, Cell.num 50, Cell.num 30] =
        .ok [some 100, some 50, some 30] := by decide
    have key := salesTrend_process_eq _ _ _ _ _ hd hdd hs hsn
    rw [key]
    have hgs : ymGroups (ymKeys
        [some (2020, 1, 15), some (2020, 1, 20), some (2020, 2, 5)]) =
        [(2020, 1), (2020, 2)] := by decide
    simp only [hgs, List.map_cons, List.map_nil]
    norm_num [sumAtKey, keyedVals, ymKeys, setCol, hasCol, List.filter,
      datetimeCell]
    decide

theorem C4_witness :
    mapE toDatetime [Cell.str "2020-03-15", Cell.str "2020-01-20"] =
      .ok [some (2020, 3, 15), some (2020, 1, 20)] ∧
    (ymGroups (ymKeys [some (2020, 3, 15), some (2020, 1, 20)])).Nodup ∧
    List.Sorted ymLe
      (ymGroups (ymKeys [some (2020, 3, 15), some (2020, 1, 20)])) := by
  have hd : getCol
      [("Date", [Cell.str "2020-03-15", Cell.str "2020-01-20"]),
       ("Sales", [Cell.num 7, Cell.num 8])] "Date" =
      .ok [Cell.str "2020-03-15", Cell.str "2020-01-20"] := by decide
  have hdd : mapE toDatetime
      [Cell.str "2020-03-15", Cell.str "2020-01-20"] =
      .ok [some (2020, 3, 15), some (2020, 1, 20)] := by decide
  have hs : getCol (setCol
      [("Date", [Cell.str "2020-03-15", Cell.str "2020-01-20"]),
       ("Sales", [Cell.num 7, Cell.num 8])] "Date"
      (([some (2020, 3, 15),
         some (2020, 1, 20)] : List (Option (ℕ × ℕ × ℕ))).map datetimeCell))
      "Sales" = .ok [Cell.num 7, Cell.num 8] := by decide
  have hsn : mapE cellOptNum [Cell.num 7, Cell.num 8] =
      .ok [some 7, some 8] := by decide
  have h := C4_sales_trend_over_time.1 _ _ _ _ _ hd hdd hs hsn
  exact ⟨hdd, h.2.1, h.2.2.1⟩

theorem numColSum_map_num (l : List (ℕ × ℕ)) (f : ℕ × ℕ → ℚ) :
    numColSum (l.map (fun k => Cell.num (f k))) = (l.map f).sum := by
  induction l with
  | nil => rfl
  | cons a l ih =>
      simp only [List.map_cons, numColSum, List.filterMap_cons, numericValue]
      simp only [numColSum, List.filterMap_map] at ih
      simp [List.filterMap_map, ih]

theorem salesTrend_conservation (dates : List (Option (ℕ × ℕ × ℕ)))
    (sales : List (Option ℚ)) (hv : ∀ t ∈ dates, t ≠ none)
    (hlen : dates.length = sales.length) :
    ((ymGroups (ymKeys dates)).map
        (fun k => sumAtKey (keyedVals (ymKeys dates) sales) k)).sum
      = (sales.filterMap id).sum := by
  have hNodup := ymGroups_nodup (ymKeys dates)
  have hcov : ∀ r ∈ keyedVals (ymKeys dates) sales,
      r.1 ∈ ymGroups (ymKeys dates) :=
    fun r hr => mem_ymGroups_iff.mpr (keyedVals_key_mem hr)
  have h1 := list_sum_fiber (ymGroups (ymKeys dates))
    (keyedVals (ymKeys dates) sales) hNodup hcov
  have h2 : ∀ k ∈ ymKeys dates, k ≠ none := by
    intro k hk
    rcases List.mem_map.mp hk with ⟨t, ht, rfl⟩
    have := hv t ht
    cases t with
    | none => exact absurd rfl this
    | some x => simp
  have h3 : (ymKeys dates).length = sales.length := by
    simpa [ymKeys] using hlen
  calc ((ymGroups (ymKeys dates)).map
          (fun k => sumAtKey (keyedVals (ymKeys dates) sales) k)).sum
      = ((keyedVals (ymKeys dates) sales).map Prod.snd).sum := by
        simpa only [sumAtKey] using h1
    _ = (sales.filterMap id).sum := keyedVals_snd_sum h2 h3

/-- C5, counterexample to the claim as stated: the dataset below is accepted
by Sales Trend Over Time (its run returns a result), but its first row has a
missing date, `pd.to_datetime` turns it into `NaT`, and `groupby` then drops
it, so the output `TotalSales` total is 50 while the input sales column sums
to 150 — the total is not conserved. -/
theorem C5_counterexample :
    SalesTrendsOverTime.process_data
        [("Date", [Cell.na, Cell.str "2020-02-01"]),
         ("Sales", [Cell.num 100, Cell.num 50])] =
      .ok ([("Date", [Cell.date 2020 2 1]),
            ("Year", [Cell.num 2020]),
            ("Month", [Cell.num 2]),
            ("TotalSales", [Cell.num 50])],
           [("Date", [Cell.na, Cell.date 2020 2 1]),
            ("Sales", [Cell.num 100, Cell.num 50])])
    ∧ numColSum [Cell.num 50] = 50
    ∧ numColSum [Cell.num 100, Cell.num 50] = 150
    ∧ numColSum [Cell.num 50] ≠ numColSum [Cell.num 100, Cell.num 50] := by
  refine ⟨?_, by norm_num [numColSum, numericValue, List.filterMap_cons],
    ?_, ?_⟩
  · have hd : getCol
        [("Date", [Cell.na, Cell.str "2020-02-01"]),
         ("Sales", [Cell.num 100, Cell.num 50])] "Date" =
        .ok [Cell.na, Cell.str "2020-02-01"] := by decide
    have hdd : mapE toDatetime [Cell.na, Cell.str "2020-02-01"] =
        .ok [none, some (2020, 2, 1)] := by decide
    have hs : getCol (setCol
        [("Date", [Cell.na, Cell.str "2020-02-01"]),
         ("Sales", [Cell.num 100, Cell.num 50])] "Date"
        (([none, some (2020, 2, 1)] : List (Option (ℕ × ℕ × ℕ))).map
          datetimeCell))
        "Sales" = .ok [Cell.num 100, Cell.num 50] := by decide
    have hsn : mapE cellOptNum [Cell.num 100, Cell.num 50] =
        .ok [some 100, some 50] := by decide
    have key := salesTrend_process_eq _ _ _ _ _ hd hdd hs hsn
    rw [key]
    have hgs : ymGroups (ymKeys
        ([none, some (2020, 2, 1)] : List (Option (ℕ × ℕ × ℕ)))) =
        [(2020, 2)] := by decide
    simp only [hgs, List.map_cons, List.map_nil]
    norm_num [sumAtKey, keyedVals, ymKeys, setCol, hasCol, List.filter,
      datetimeCell]
    decide
  · norm_num [numColSum, numericValue, List.filterMap_cons]
  · norm_num [numColSum, numericValue, List.filterMap_cons]

/-- C5, amended: conservation of the total holds for every accepted dataset
whose temporal column has **no missing values**: the sum of `TotalSales` over
the output rows equals the sum of the input sales column.  (When a date cell
is missing it parses to `NaT`, `groupby` drops that row, and its sales leave
the total — see the counterexample.) -/
theorem C5_conservation_amended :
    ∀ (data : Dataset) (dcol scol : List Cell)
      (dates : List (Option (ℕ × ℕ × ℕ))) (sales : List (Option ℚ)),
      getCol data "Date" = .ok dcol →
      mapE toDatetime dcol = .ok dates →
      getCol (setCol data "Date" (dates.map datetimeCell)) "Sales" =
        .ok scol →
      mapE cellOptNum scol = .ok sales →
      dcol.length = scol.length →
      (∀ t ∈ dates, t ≠ none) →
        getCol data "Sales" = .ok scol
        ∧ SalesTrendsOverTime.process_data data =
            .ok ([("Date", (ymGroups (ymKeys dates)).map
                      (fun k => Cell.date k.1 k.2 1)),
                  ("Year", (ymGroups (ymKeys dates)).map
                      (fun k => Cell.num k.1)),
                  ("Month", (ymGroups (ymKeys dates)).map
                      (fun k => Cell.num k.2)),
                  ("TotalSales", (ymGroups (ymKeys dates)).map
                      (fun k => Cell.num
                        (sumAtKey (keyedVals (ymKeys dates) sales) k)))],
                 setCol data "Date" (dates.map datetimeCell))
        ∧ numColSum ((ymGroups (ymKeys dates)).map
              (fun k => Cell.num
                (sumAtKey (keyedVals (ymKeys dates) sales) k)))
            = numColSum scol := by
  intro data dcol scol dates sales hd hdd hs hsn hlen hv
  have hlen2 : dates.length = sales.length :=
    (mapE_ok_length hdd).trans (hlen.trans (mapE_ok_length hsn).symm)
  refine ⟨?_, salesTrend_process_eq data dcol scol dates sales hd hdd hs hsn,
    ?_⟩
  · rw [← getCol_setCol_ne data "Date" "Sales"
      (dates.map datetimeCell) (by decide)]
    exact hs
  · rw [numColSum_map_num, salesTrend_conservation dates sales hv hlen2,
      numColSum, mapE_cellOptNum_filter hsn]

theorem C5_witness :
    mapE cellOptNum [Cell.num 100, Cell.num 50, Cell.num 30] =
      .ok [some 100, some 50, some 30] ∧
    numColSum ((ymGroups (ymKeys
        [some (2020, 1, 15), some (2020, 1, 20), some (2020, 2, 5)])).map
      (fun k => Cell.num (sumAtKey (keyedVals (ymKeys
        [some (2020, 1, 15), some (2020, 1, 20), some (2020, 2, 5)])
        [some 100, some 50, some 30]) k)))
      = numColSum [Cell.num 100, Cell.num 50, Cell.num 30] := by
  have hd : getCol
      [("Date", [Cell.str "2020-01-15", Cell.str "2020-01-20",
                 Cell.str "2020-02-05"]),
       ("Sales", [Cell.num 100, Cell.num 50, Cell.num 30])] "Date" =
      .ok [Cell.str "2020-01-15", Cell.str "2020-01-20",
           Cell.str "2020-02-05"] := by decide
  have hdd : mapE toDatetime
      [Cell.str "2020-01-15", Cell.str "2020-01-20",
       Cell.str "2020-02-05"] =
      .ok [some (2020, 1, 15), some (2020, 1, 20), some (2020, 2, 5)] := by
    decide
  have hs : getCol (setCol
      [("Date", [Cell.str "2020-01-15", Cell.str "2020-01-20",
                 Cell.str "2020-02-05"]),
       ("Sales", [Cell.num 100, Cell.num 50, Cell.num 30])] "Date"
      (([some (2020, 1, 15), some (2020, 1, 20),
         some (2020, 2, 5)] : List (Option (ℕ × ℕ × ℕ))).map datetimeCell))
      "Sales" = .ok [Cell.num 100, Cell.num 50, Cell.num 30] := by decide
  have hsn : mapE cellOptNum [Cell.num 100, Cell.num 50, Cell.num 30] =
      .ok [some 100, some 50, some 30] := by decide
  have hv : ∀ t ∈ ([some (2020, 1, 15), some (2020, 1, 20),
      some (2020, 2, 5)] : List (Option (ℕ × ℕ × ℕ))), t ≠ none := by decide
  have h := C5_conservation_amended _ _ _ _ _ hd hdd hs hsn (by decide) hv
  exact ⟨hsn, h.2.2⟩

theorem except_pure_eq (a : α) : (pure a : Except PyErr α) = .ok a := rfl

theorem cellGroups_nodup (keys : List Cell) : (cellGroups keys).Nodup :=
  (List.perm_insertionSort cellLe _).nodup_iff.mpr (List.nodup_dedup _)

theorem mem_cellGroups_iff {keys : List Cell} {k : Cell} :
    k ∈ cellGroups keys ↔ (k ∈ keys ∧ k ≠ .na) := by
  unfold cellGroups
  rw [(List.perm_insertionSort cellLe _).mem_iff, List.mem_dedup,
    List.mem_filter]
  simp

theorem cellKeyedVals_key_mem {keys : List Cell} {vals : List (Option ℚ)}
    {r : Cell × ℚ} (h : r ∈ cellKeyedVals keys vals) :
    r.1 ∈ keys ∧ r.1 ≠ .na := by
  unfold cellKeyedVals at h
  rcases List.mem_filterMap.mp h with ⟨p, hp, he⟩
  by_cases hna : p.1 = .na
  · rw [if_pos hna] at he
    cases he
  · rw [if_neg hna] at he
    cases hv : p.2 with
    | none => rw [hv] at he; cases he
    | some q =>
        rw [hv] at he
        simp only [Option.map_some'] at he
        cases he
        exact ⟨(List.of_mem_zip hp).1, hna⟩

theorem profit_process_eq (data : Dataset) (ccol pcol : List Cell)
    (profit : List (Option ℚ))
    (hc : getCol data "Country" = .ok ccol)
    (hp : getCol data "Profit" = .ok pcol)
    (hpn : mapE cellOptNum pcol = .ok profit) :
    ProfitAnalysisByCountry.process_data data =
      .ok ([("Country", cellGroups ccol),
            ("Profit", (cellGroups ccol).map
                (fun k => Cell.num
                  (cellSumAtKey (cellKeyedVals ccol profit) k)))], data) := by
  simp only [ProfitAnalysisByCountry.process_data, hc, exceptBind_ok, hp, hpn]
  rfl

theorem product_process_eq (data : Dataset) (ccol scol pcol : List Cell)
    (sales profit : List (Option ℚ))
    (hc : getCol data "Product" = .ok ccol)
    (hs : getCol data "Sales" = .ok scol)
    (hp : getCol data "Profit" = .ok pcol)
    (hsn : mapE cellOptNum scol = .ok sales)
    (hpn : mapE cellOptNum pcol = .ok profit) :
    ProductPerformance.process_data data =
      .ok ([("Product", cellGroups ccol),
            ("Sales", (cellGroups ccol).map
                (fun k => Cell.num
                  (cellSumAtKey (cellKeyedVals ccol sales) k))),
            ("Profit", (cellGroups ccol).map
                (fun k => Cell.num
                  (cellSumAtKey (cellKeyedVals ccol profit) k)))], data) := by
  simp only [ProductPerformance.process_data, hc, exceptBind_ok, hs, hp, hsn,
    hpn]
  rfl

theorem distribution_process_eq (data : Dataset) (ccol scol : List Cell)
    (sales : List (Option ℚ))
    (hc : getCol data "Country" = .ok ccol)
    (hs : getCol data "Sales" = .ok scol)
    (hsn : mapE cellOptNum scol = .ok sales) :
    CountryWiseSalesDistribution.process_data data =
      .ok ([("Country", cellGroups ccol),
            ("Sales", (cellGroups ccol).map
                (fun k => Cell.num
                  (cellSumAtKey (cellKeyedVals ccol sales) k)))], data) := by
  simp only [CountryWiseSalesDistribution.process_data, hc, exceptBind_ok, hs,
    hsn]
  rfl

/-- C6, counterexample to the claim as stated: on an input whose only
category cell is missing, `groupby` drops the missing key, so the output has
no category values at all while the input's set of distinct category values
is the singleton containing the missing marker — the two sets differ. -/
theorem C6_counterexample :
    ProfitAnalysisByCountry.process_data
        [("Country", [Cell.na]), ("Profit", [Cell.num 5])] =
      .ok ([("Country", []), ("Profit", [])],
           [("Country", [Cell.na]), ("Profit", [Cell.num 5])])
    ∧ Cell.na ∈ [Cell.na]
    ∧ Cell.na ∉ ([] : List Cell) := by
  refine ⟨?_, by decide, by decide⟩
  have hc : getCol [("Country", [Cell.na]), ("Profit", [Cell.num 5])]
      "Country" = .ok [Cell.na] := by decide
  have hp : getCol [("Country", [Cell.na]), ("Profit", [Cell.num 5])]
      "Profit" = .ok [Cell.num 5] := by decide
  have hpn : mapE cellOptNum [Cell.num 5] = .ok [some 5] := by decide
  have key := profit_process_eq _ _ _ _ hc hp hpn
  rw [key]
  have hgs : cellGroups [Cell.na] = [] := by decide
  simp [hgs]

/-- C6, amended: for Profit by Category, Performance by Entity, and
Distribution by Category, the set of distinct **non-missing** category values
in the output equals the set of distinct non-missing category values in the
input (rows with a missing category are dropped by `groupby`); each category
appears exactly once; each output row's numeric value is the sum, skipping
missing numerics, over exactly the input rows sharing that category value;
and each strategy is deterministic — equal inputs give equal outputs. -/
theorem C6_category_groupbys_amended :
    (∀ (data : Dataset) (ccol pcol : List Cell) (profit : List (Option ℚ)),
      getCol data "Country" = .ok ccol →
      getCol data "Profit" = .ok pcol →
      mapE cellOptNum pcol = .ok profit →
        ProfitAnalysisByCountry.process_data data =
          .ok ([("Country", cellGroups ccol),
                ("Profit", (cellGroups ccol).map
                    (fun k => Cell.num
                      (cellSumAtKey (cellKeyedVals ccol profit) k)))], data)
        ∧ (cellGroups ccol).Nodup
        ∧ (∀ k, k ∈ cellGroups ccol ↔ (k ∈ ccol ∧ k ≠ .na)))
    ∧ (∀ (data : Dataset) (ccol scol pcol : List Cell)
          (sales profit : List (Option ℚ)),
      getCol data "Product" = .ok ccol →
      getCol data "Sales" = .ok scol →
      getCol data "Profit" = .ok pcol →
      mapE cellOptNum scol = .ok sales →
      mapE cellOptNum pcol = .ok profit →
        ProductPerformance.process_data data =
          .ok ([("Product", cellGroups ccol),
                ("Sales", (cellGroups ccol).map
                    (fun k => Cell.num
                      (cellSumAtKey (cellKeyedVals ccol sales) k))),
                ("Profit", (cellGroups ccol).map
                    (fun k => Cell.num
                      (cellSumAtKey (cellKeyedVals ccol profit) k)))], data)
        ∧ (cellGroups ccol).Nodup
        ∧ (∀ k, k ∈ cellGroups ccol ↔ (k ∈ ccol ∧ k ≠ .na)))
    ∧ (∀ (data : Dataset) (ccol scol : List Cell) (sales : List (Option ℚ)),
      getCol data "Country" = .ok ccol →
      getCol data "Sales" = .ok scol →
      mapE cellOptNum scol = .ok sales →
        CountryWiseSalesDistribution.process_data data =
          .ok ([("Country", cellGroups ccol),
                ("Sales", (cellGroups ccol).map
                    (fun k => Cell.num
                      (cellSumAtKey (cellKeyedVals ccol sales) k)))], data)
        ∧ (cellGroups ccol).Nodup
        ∧ (∀ k, k ∈ cellGroups ccol ↔ (k ∈ ccol ∧ k ≠ .na)))
    ∧ (∀ d1 d2 : Dataset, d1 = d2 →
        ProfitAnalysisByCountry.process_data d1 =
          ProfitAnalysisByCountry.process_data d2
        ∧ ProductPerformance.process_data d1 =
            ProductPerformance.process_data d2
        ∧ CountryWiseSalesDistribution.process_data d1 =
            CountryWiseSalesDistribution.process_data d2) := by
  refine ⟨?_, ?_, ?_, ?_⟩
  · intro data ccol pcol profit hc hp hpn
    exact ⟨profit_process_eq data ccol pcol profit hc hp hpn,
      cellGroups_nodup ccol, fun k => mem_cellGroups_iff⟩
  · intro data ccol scol pcol sales profit hc hs hp hsn hpn
    exact ⟨product_process_eq data ccol scol pcol sales profit hc hs hp hsn
      hpn, cellGroups_nodup ccol, fun k => mem_cellGroups_iff⟩
  · intro data ccol scol sales hc hs hsn
    exact ⟨distribution_process_eq data ccol scol sales hc hs hsn,
      cellGroups_nodup ccol, fun k => mem_cellGroups_iff⟩
  · rintro d1 d2 rfl
    exact ⟨rfl, rfl, rfl⟩

theorem C6_witness :
    getCol [("Country", [Cell.str "A", Cell.str "B", Cell.str "A"]),
            ("Profit", [Cell.num 1, Cell.num 2, Cell.num 3])] "Country" =
      .ok [Cell.str "A", Cell.str "B", Cell.str "A"] ∧
    (cellGroups [Cell.str "A", Cell.str "B", Cell.str "A"]).Nodup ∧
    (Cell.str "A" ∈ cellGroups [Cell.str "A", Cell.str "B", Cell.str "A"] ↔
      (Cell.str "A" ∈ [Cell.str "A", Cell.str "B", Cell.str "A"] ∧
        Cell.str "A" ≠ Cell.na)) := by
  have hc : getCol [("Country", [Cell.str "A", Cell.str "B", Cell.str "A"]),
      ("Profit", [Cell.num 1, Cell.num 2, Cell.num 3])] "Country" =
      .ok [Cell.str "A", Cell.str "B", Cell.str "A"] := by decide
  have hp : getCol [("Country", [Cell.str "A", Cell.str "B", Cell.str "A"]),
      ("Profit", [Cell.num 1, Cell.num 2, Cell.num 3])] "Profit" =
      .ok [Cell.num 1, Cell.num 2, Cell.num 3] := by decide
  have hpn : mapE cellOptNum [Cell.num 1, Cell.num 2, Cell.num 3] =
      .ok [some 1, some 2, some 3] := by decide
  have h := C6_category_groupbys_amended.1 _ _ _ _ hc hp hpn
  exact ⟨hc, h.2.1, h.2.2 (Cell.str "A")⟩

/-- C7: a missing required column is fatal only for the aggregation that
needs it.  On a well-formed dataset that has `Country`, `Profit` and a
parseable `Date` column but no `Sales` column, Profit by Category succeeds
with its normal grouped result while Sales Trend Over Time fails with the
missing-column error for `Sales` (the `KeyError` the spec calls
`MissingColumn`). -/
theorem C7_missing_column_confinement :
    ∀ (data : Dataset) (ccol pcol dcol : List Cell)
      (dates : List (Option (ℕ × ℕ × ℕ))) (profit : List (Option ℚ)),
      getCol data "Country" = .ok ccol →
      getCol data "Profit" = .ok pcol →
      mapE cellOptNum pcol = .ok profit →
      getCol data "Date" = .ok dcol →
      mapE toDatetime dcol = .ok dates →
      getCol data "Sales" = .error (.missingColumn "Sales") →
        ProfitAnalysisByCountry.process_data data =
          .ok ([("Country", cellGroups ccol),
                ("Profit", (cellGroups ccol).map
                    (fun k => Cell.num
                      (cellSumAtKey (cellKeyedVals ccol profit) k)))], data)
        ∧ SalesTrendsOverTime.process_data data =
            .error (.missingColumn "Sales") := by
  intro data ccol pcol dcol dates profit hc hp hpn hd hdd hs
  refine ⟨profit_process_eq data ccol pcol profit hc hp hpn, ?_⟩
  have hs2 : getCol (setCol data "Date" (dates.map datetimeCell)) "Sales" =
      .error (.missingColumn "Sales") := by
    rw [getCol_setCol_ne data "Date" "Sales" (dates.map datetimeCell)
      (by decide)]
    exact hs
  simp only [SalesTrendsOverTime.process_data, hd, exceptBind_ok, hdd, hs2,
    exceptBind_error]

theorem C7_witness :
    getCol [("Date", [Cell.str "2020-01-15"]),
            ("Country", [Cell.str "A"]),
            ("Profit", [Cell.num 4])] "Sales" =
      .error (.missingColumn "Sales") ∧
    (ProfitAnalysisByCountry.process_data
        [("Date", [Cell.str "2020-01-15"]),
         ("Country", [Cell.str "A"]),
         ("Profit", [Cell.num 4])]).isOk = true ∧
    SalesTrendsOverTime.process_data
        [("Date", [Cell.str "2020-01-15"]),
         ("Country", [Cell.str "A"]),
         ("Profit", [Cell.num 4])] =
      .error (.missingColumn "Sales") := by
  have hc : getCol [("Date", [Cell.str "2020-01-15"]),
      ("Country", [Cell.str "A"]), ("Profit", [Cell.num 4])] "Country" =
      .ok [Cell.str "A"] := by decide
  have hp : getCol [("Date", [Cell.str "2020-01-15"]),
      ("Country", [Cell.str "A"]), ("Profit", [Cell.num 4])] "Profit" =
      .ok [Cell.num 4] := by decide
  have hpn : mapE cellOptNum [Cell.num 4] = .ok [some 4] := by decide
  have hd : getCol [("Date", [Cell.str "2020-01-15"]),
      ("Country", [Cell.str "A"]), ("Profit", [Cell.num 4])] "Date" =
      .ok [Cell.str "2020-01-15"] := by decide
  have hdd : mapE toDatetime [Cell.str "2020-01-15"] =
      .ok [some (2020, 1, 15)] := by decide
  have hs : getCol [("Date", [Cell.str "2020-01-15"]),
      ("Country", [Cell.str "A"]), ("Profit", [Cell.num 4])] "Sales" =
      .error (.missingColumn "Sales") := by decide
  have h := C7_missing_column_confinement _ _ _ _ _ _ hc hp hpn hd hdd hs
  exact ⟨hs, by rw [h.1]; rfl, h.2⟩

theorem hasCol_iff_mem {d : Dataset} {c : String} :
    hasCol d c = true ↔ c ∈ colNames d := by
  simp only [hasCol, colNames, List.any_eq_true, List.mem_map,
    decide_eq_true_eq]

theorem hasCol_setCol_mono {d : Dataset} {c c' : String} {col : List Cell}
    (h : hasCol d c' = true) : hasCol (setCol d c col) c' = true := by
  by_cases hp : hasCol d c = true
  · rw [hasCol_iff_mem, colNames_setCol d c col hp, ← hasCol_iff_mem]
    exact h
  · rw [hasCol_iff_mem]
    unfold setCol
    rw [if_neg (fun hh => hp hh)]
    unfold colNames
    rw [List.map_append, List.mem_append]
    exact Or.inl (hasCol_iff_mem.mp h)

theorem colNames_foldl_setCol (pairs : List (String × List Cell)) :
    ∀ d : Dataset, (∀ p ∈ pairs, hasCol d p.1 = true) →
      colNames (pairs.foldl (fun d p => setCol d p.1 p.2) d) = colNames d := by
  induction pairs with
  | nil =>
      intro d _
      rfl
  | cons p pairs ih =>
      intro d h
      have hp := h p (List.mem_cons_self p pairs)
      have hrest : ∀ q ∈ pairs, hasCol (setCol d p.1 p.2) q.1 = true :=
        fun q hq => hasCol_setCol_mono (h q (List.mem_cons_of_mem p hq))
      simp only [List.foldl_cons]
      rw [ih (setCol d p.1 p.2) hrest, colNames_setCol d p.1 p.2 hp]

theorem getCol_foldl_setCol_ne (pairs : List (String × List Cell)) :
    ∀ (d : Dataset) (c : String), (∀ p ∈ pairs, c ≠ p.1) →
      getCol (pairs.foldl (fun d p => setCol d p.1 p.2) d) c = getCol d c := by
  induction pairs with
  | nil =>
      intro d c _
      rfl
  | cons p pairs ih =>
      intro d c h
      simp only [List.foldl_cons]
      rw [ih _ c (fun q hq => h q (List.mem_cons_of_mem p hq)),
        getCol_setCol_ne d p.1 c p.2 (h p (List.mem_cons_self p pairs))]

theorem mapE_ok_forall {f : α → Except PyErr β} {l : List α} {r : List β}
    (h : mapE f l = .ok r) : ∀ a ∈ l, ∃ b, f a = .ok b := by
  induction l generalizing r with
  | nil =>
      intro a ha
      cases ha
  | cons x l ih =>
      rw [mapE_cons, exceptBind_ok_iff] at h
      obtain ⟨b, hb, h2⟩ := h
      rw [exceptBind_ok_iff] at h2
      obtain ⟨r0, hr0, _⟩ := h2
      intro a ha
      rcases List.mem_cons.mp ha with rfl | ha'
      · exact ⟨b, hb⟩
      · exact ih hr0 a ha'

/-- C8: the aggregation strategies leave the input dataset unchanged except
for the documented in-place normalization.  Profit by Category, Performance
by Entity, Discount Impact, and Distribution by Category hand back the input
state untouched; Sales Trend Over Time changes only the `Date` column (the
dataset keeps its column names, and every other column reads back
unchanged); Correlation Matrix changes only the seven currency columns; and
no strategy touches any other caller-visible state (the embedding threads
the entire mutable state of a run explicitly, and it consists of the input
dataset alone). -/
theorem C8_frame_effects :
    (∀ (data out d2 : Dataset),
        ProfitAnalysisByCountry.process_data data = .ok (out, d2) →
          d2 = data)
    ∧ (∀ (data out d2 : Dataset),
        ProductPerformance.process_data data = .ok (out, d2) → d2 = data)
    ∧ (∀ (data out d2 : Dataset),
        DiscountImpactOnSales.process_data data = .ok (out, d2) → d2 = data)
    ∧ (∀ (data out d2 : Dataset),
        CountryWiseSalesDistribution.process_data data = .ok (out, d2) →
          d2 = data)
    ∧ (∀ (data out d2 : Dataset),
        SalesTrendsOverTime.process_data data = .ok (out, d2) →
          colNames d2 = colNames data
          ∧ ∀ c, c ≠ "Date" → getCol d2 c = getCol data c)
    ∧ (∀ (data : Dataset) (out : CorrOut) (d2 : Dataset),
        CorrelationAnalysis.process_data data = .ok (out, d2) →
          colNames d2 = colNames data
          ∧ ∀ c, c ∉ corrCols → getCol d2 c = getCol data c) := by
  refine ⟨?_, ?_, ?_, ?_, ?_, ?_⟩
  · intro data out d2 h
    simp only [ProfitAnalysisByCountry.process_data] at h
    rw [exceptBind_ok_iff] at h
    obtain ⟨ccol, _, h⟩ := h
    rw [exceptBind_ok_iff] at h
    obtain ⟨pcol, _, h⟩ := h
    rw [exceptBind_ok_iff] at h
    obtain ⟨profit, _, h⟩ := h
    rw [except_pure_eq] at h
    cases h
    rfl
  · intro data out d2 h
    simp only [ProductPerformance.process_data] at h
    rw [exceptBind_ok_iff] at h
    obtain ⟨ccol, _, h⟩ := h
    rw [exceptBind_ok_iff] at h
    obtain ⟨scol, _, h⟩ := h
    rw [exceptBind_ok_iff] at h
    obtain ⟨pcol, _, h⟩ := h
    rw [exceptBind_ok_iff] at h
    obtain ⟨sales, _, h⟩ := h
    rw [exceptBind_ok_iff] at h
    obtain ⟨profit, _, h⟩ := h
    rw [except_pure_eq] at h
    cases h
    rfl
  · intro data out d2 h
    simp only [DiscountImpactOnSales.process_data] at h
    rw [exceptBind_ok_iff] at h
    obtain ⟨dcol, _, h⟩ := h
    rw [exceptBind_ok_iff] at h
    obtain ⟨scol, _, h⟩ := h
    rw [exceptBind_ok_iff] at h
    obtain ⟨pcol, _, h⟩ := h
    rw [except_pure_eq] at h
    cases h
    rfl
  · intro data out d2 h
    simp only [CountryWiseSalesDistribution.process_data] at h
    rw [exceptBind_ok_iff] at h
    obtain ⟨ccol, _, h⟩ := h
    rw [exceptBind_ok_iff] at h
    obtain ⟨scol, _, h⟩ := h
    rw [exceptBind_ok_iff] at h
    obtain ⟨sales, _, h⟩ := h
    rw [except_pure_eq] at h
    cases h
    rfl
  · intro data out d2 h
    simp only [SalesTrendsOverTime.process_data] at h
    rw [exceptBind_ok_iff] at h
    obtain ⟨dcol, hd, h⟩ := h
    rw [exceptBind_ok_iff] at h
    obtain ⟨dates, _, h⟩ := h
    rw [exceptBind_ok_iff] at h
    obtain ⟨scol, _, h⟩ := h
    rw [exceptBind_ok_iff] at h
    obtain ⟨sales, _, h⟩ := h
    rw [except_pure_eq] at h
    cases h
    have hhas : hasCol data "Date" = true := hasCol_of_getCol_ok hd
    exact ⟨colNames_setCol data "Date" _ hhas,
      fun c hc => getCol_setCol_ne data "Date" c _ hc⟩
  · intro data out d2 h
    simp only [CorrelationAnalysis.process_data] at h
    rw [exceptBind_ok_iff] at h
    obtain ⟨cols, hcols, h⟩ := h
    rw [except_pure_eq] at h
    cases h
    have hget := mapE_ok_forall hcols
    have hhas : ∀ p ∈ corrCols.zip (cols.map convertCol),
        hasCol data p.1 = true := by
      intro p hp
      rcases hget p.1 (List.of_mem_zip hp).1 with ⟨col, hcol⟩
      exact hasCol_of_getCol_ok hcol
    constructor
    · exact colNames_foldl_setCol _ data hhas
    · intro c hc
      apply getCol_foldl_setCol_ne
      intro p hp he
      exact hc (he ▸ (List.of_mem_zip hp).1)

theorem C8_witness :
    ProfitAnalysisByCountry.process_data
        [("Country", []), ("Profit", [])] =
      .ok (([("Country", []), ("Profit", [])] : Dataset),
           ([("Country", []), ("Profit", [])] : Dataset)) ∧
    ([("Country", []), ("Profit", [])] : Dataset) =
      [("Country", []), ("Profit", [])] := by
  have hproc : ProfitAnalysisByCountry.process_data
      [("Country", []), ("Profit", [])] =
      .ok (([("Country", []), ("Profit", [])] : Dataset),
           ([("Country", []), ("Profit", [])] : Dataset)) := by decide
  exact ⟨hproc, C8_frame_effects.1 _ _ _ hproc⟩

theorem vpairs_swap (xs ys : List (Option ℚ)) :
    vpairs ys xs = (vpairs xs ys).map Prod.swap := by
  unfold vpairs
  rw [← List.zip_swap xs ys, List.filterMap_map, List.map_filterMap]
  apply List.filterMap_congr
  intro p _
  rcases p with ⟨a, b⟩
  cases a <;> cases b <;> rfl

theorem meanFst_swap (ps : List (ℚ × ℚ)) :
    meanFst (ps.map Prod.swap) = meanSnd ps := by
  unfold meanFst meanSnd
  rw [List.map_map, List.length_map]
  have h : (Prod.fst ∘ Prod.swap : ℚ × ℚ → ℚ) = Prod.snd :=
    funext fun p => rfl
  rw [h]

theorem meanSnd_swap (ps : List (ℚ × ℚ)) :
    meanSnd (ps.map Prod.swap) = meanFst ps := by
  unfold meanFst meanSnd
  rw [List.map_map, List.length_map]
  have h : (Prod.snd ∘ Prod.swap : ℚ × ℚ → ℚ) = Prod.fst :=
    funext fun p => rfl
  rw [h]

theorem covSum_swap (ps : List (ℚ × ℚ)) :
    covSum (ps.map Prod.swap) = covSum ps := by
  unfold covSum
  rw [meanFst_swap, meanSnd_swap, List.map_map]
  congr 1
  apply List.map_congr_left
  intro p _
  simp only [Function.comp, Prod.fst_swap, Prod.snd_swap]
  ring

theorem varFst_swap (ps : List (ℚ × ℚ)) :
    varFst (ps.map Prod.swap) = varSnd ps := by
  unfold varFst varSnd
  rw [meanFst_swap, List.map_map]
  congr 1

theorem varSnd_swap (ps : List (ℚ × ℚ)) :
    varSnd (ps.map Prod.swap) = varFst ps := by
  unfold varFst varSnd
  rw [meanSnd_swap, List.map_map]
  congr 1

theorem corrEntry_symm (xs ys : List (Option ℚ)) :
    corrEntry ys xs = corrEntry xs ys := by
  simp only [corrEntry, vpairs_swap xs ys, List.length_map, covSum_swap,
    varFst_swap, varSnd_swap]
  rw [mul_comm (varSnd (vpairs xs ys)) (varFst (vpairs xs ys)),
    mul_comm ((varSnd (vpairs xs ys) : ℝ)) ((varFst (vpairs xs ys) : ℝ))]

theorem vpairs_self (xs : List (Option ℚ)) :
    vpairs xs xs = (xs.filterMap id).map (fun a => (a, a)) := by
  induction xs with
  | nil => rfl
  | cons x xs ih =>
      cases x with
      | none =>
          simp only [vpairs, List.zip_cons_cons, List.filterMap_cons] at ih ⊢
          simpa using ih
      | some a =>
          simp only [vpairs, List.zip_cons_cons, List.filterMap_cons] at ih ⊢
          simpa using ih

theorem meanFst_diag (l : List ℚ) :
    meanFst (l.map (fun a => (a, a))) = l.sum / l.length := by
  unfold meanFst
  rw [List.map_map, List.length_map]
  have h : ((Prod.fst : ℚ × ℚ → ℚ) ∘ fun a => (a, a)) = id :=
    funext fun p => rfl
  rw [h, List.map_id]

theorem meanSnd_diag (l : List ℚ) :
    meanSnd (l.map (fun a => (a, a))) = l.sum / l.length := by
  unfold meanSnd
  rw [List.map_map, List.length_map]
  have h : ((Prod.snd : ℚ × ℚ → ℚ) ∘ fun a => (a, a)) = id :=
    funext fun p => rfl
  rw [h, List.map_id]

theorem covSum_diag (l : List ℚ) :
    covSum (l.map (fun a => (a, a)))
      = (l.map (fun a => (a - l.sum / l.length) ^ 2)).sum := by
  unfold covSum
  rw [meanFst_diag, meanSnd_diag, List.map_map]
  congr 1
  apply List.map_congr_left
  intro a _
  simp only [Function.comp]
  ring

theorem varFst_diag (l : List ℚ) :
    varFst (l.map (fun a => (a, a)))
      = (l.map (fun a => (a - l.sum / l.length) ^ 2)).sum := by
  unfold varFst
  rw [meanFst_diag, List.map_map]
  congr 1

theorem varSnd_diag (l : List ℚ) :
    varSnd (l.map (fun a => (a, a)))
      = (l.map (fun a => (a - l.sum / l.length) ^ 2)).sum := by
  unfold varSnd
  rw [meanSnd_diag, List.map_map]
  congr 1

theorem varFst_nonneg (ps : List (ℚ × ℚ)) : 0 ≤ varFst ps := by
  unfold varFst
  apply List.sum_nonneg
  intro x hx
  rcases List.mem_map.mp hx with ⟨p, _, rfl⟩
  exact sq_nonneg _

theorem varSnd_nonneg (ps : List (ℚ × ℚ)) : 0 ≤ varSnd ps := by
  unfold varSnd
  apply List.sum_nonneg
  intro x hx
  rcases List.mem_map.mp hx with ⟨p, _, rfl⟩
  exact sq_nonneg _

theorem list_sum_nonneg_all_zero {l : List ℚ} (h0 : ∀ x ∈ l, 0 ≤ x)
    (h : l.sum = 0) : ∀ x ∈ l, x = 0 := by
  induction l with
  | nil =>
      intro x hx
      cases hx
  | cons a l ih =>
      have ha : 0 ≤ a := h0 a (List.mem_cons_self a l)
      have hrest : 0 ≤ l.sum :=
        List.sum_nonneg (fun x hx => h0 x (List.mem_cons_of_mem _ hx))
      rw [List.sum_cons] at h
      have ha0 : a = 0 := le_antisymm (by linarith) ha
      have hl0 : l.sum = 0 := by linarith
      intro x hx
      rcases List.mem_cons.mp hx with rfl | hx'
      · exact ha0
      · exact ih (fun y hy => h0 y (List.mem_cons_of_mem _ hy)) hl0 x hx'

theorem sqdev_sum_zero_iff (l : List ℚ) :
    (l.map (fun a => (a - l.sum / l.length) ^ 2)).sum = 0
      ↔ ∀ a ∈ l, a = l.sum / l.length := by
  constructor
  · intro h a ha
    have hz := list_sum_nonneg_all_zero
      (fun x hx => by
        rcases List.mem_map.mp hx with ⟨b, _, rfl⟩
        exact sq_nonneg _) h
    have := hz ((a - l.sum / l.length) ^ 2)
      (List.mem_map_of_mem _ ha)
    have h2 : a - l.sum / l.length = 0 := by
      exact pow_eq_zero_iff (by norm_num) |>.mp this
    linarith
  · intro h
    apply List.sum_eq_zero
    intro x hx
    rcases List.mem_map.mp hx with ⟨a, ha, rfl⟩
    rw [h a ha]
    ring

theorem mean_const {l : List ℚ} {c : ℚ} (hne : l ≠ [])
    (h : ∀ a ∈ l, a = c) : l.sum / l.length = c := by
  rw [List.sum_eq_card_nsmul l c h, nsmul_eq_mul]
  have hlen : (l.length : ℚ) ≠ 0 := by
    simpa using List.length_pos.mpr hne |>.ne'
  field_simp

theorem corrEntry_eq (xs ys : List (Option ℚ)) :
    corrEntry xs ys =
      if (vpairs xs ys).length = 0 then none
      else if varFst (vpairs xs ys) * varSnd (vpairs xs ys) = 0 then none
      else some ((covSum (vpairs xs ys) : ℝ) /
        Real.sqrt ((varFst (vpairs xs ys) : ℝ) *
          (varSnd (vpairs xs ys) : ℝ))) := rfl

theorem corrEntry_diag (xs : List (Option ℚ)) :
    (corrEntry xs xs = some 1 ∨ corrEntry xs xs = none)
    ∧ (corrEntry xs xs = some 1 ↔
        ∃ a ∈ xs.filterMap id, ∃ b ∈ xs.filterMap id, a ≠ b) := by
  have hps : vpairs xs xs = (xs.filterMap id).map (fun a => (a, a)) :=
    vpairs_self xs
  have hlen : (vpairs xs xs).length = (xs.filterMap id).length := by
    rw [hps, List.length_map]
  have hcov := covSum_diag (xs.filterMap id)
  have hvf := varFst_diag (xs.filterMap id)
  have hvs := varSnd_diag (xs.filterMap id)
  rw [← hps] at hcov hvf hvs
  have hVnn : 0 ≤ varFst (vpairs xs xs) := varFst_nonneg _
  by_cases hemp : (xs.filterMap id).length = 0
  · have hnone : corrEntry xs xs = none := by
      rw [corrEntry_eq, hlen, if_pos hemp]
    have hnil : xs.filterMap id = [] := List.length_eq_zero.mp hemp
    refine ⟨Or.inr hnone, ?_⟩
    rw [hnone, hnil]
    simp
  · by_cases hV0 : varFst (vpairs xs xs) = 0
    · have hnone : corrEntry xs xs = none := by
        rw [corrEntry_eq, if_neg (by rw [hlen]; exact hemp),
          if_pos (by rw [hV0]; ring)]
      refine ⟨Or.inr hnone, ?_⟩
      rw [hnone]
      constructor
      · intro h
        cases h
      · rintro ⟨a, ha, b, hb, hab⟩
        exfalso
        have hall := (sqdev_sum_zero_iff (xs.filterMap id)).mp
          (by rw [← hvf]; exact hV0)
        exact hab ((hall a ha).trans (hall b hb).symm)
    · have hVpos : 0 < varFst (vpairs xs xs) :=
        lt_of_le_of_ne hVnn (Ne.symm hV0)
      have hVVs : varSnd (vpairs xs xs) = varFst (vpairs xs xs) := by
        rw [hvf, hvs]
      have hprod : varFst (vpairs xs xs) * varSnd (vpairs xs xs) ≠ 0 := by
        rw [hVVs]
        exact mul_ne_zero hV0 hV0
      have hcv : covSum (vpairs xs xs) = varFst (vpairs xs xs) := by
        rw [hvf, hcov]
      have hsome : corrEntry xs xs = some 1 := by
        rw [corrEntry_eq, if_neg (by rw [hlen]; exact hemp), if_neg hprod]
        congr 1
        rw [hVVs, hcv, Real.sqrt_mul_self (by exact_mod_cast hVnn),
          div_self (by exact_mod_cast hV0)]
      refine ⟨Or.inl hsome, ?_⟩
      rw [hsome]
      constructor
      · intro _
        by_contra hno
        push_neg at hno
        have hne : xs.filterMap id ≠ [] := fun h => hemp (by rw [h]; rfl)
        rcases List.exists_mem_of_ne_nil _ hne with ⟨c, hc⟩
        have hall : ∀ a ∈ xs.filterMap id, a = c :=
          fun a ha => hno a ha c hc
        have hmc := mean_const hne hall
        have hV : varFst (vpairs xs xs) = 0 := by
          rw [hvf]
          apply (sqdev_sum_zero_iff _).mpr
          intro a ha
          rw [hall a ha, hmc]
        exact hV0 hV
      · intro _
        rfl

theorem list_map_sum_range (f : α → ℚ) (d : α) (l : List α) :
    (l.map f).sum = ∑ i in Finset.range l.length, f (l.getD i d) := by
  induction l with
  | nil => simp
  | cons a l ih =>
      rw [List.map_cons, List.sum_cons, ih, List.length_cons,
        Finset.sum_range_succ']
      simp [List.getD_cons_succ, List.getD_cons_zero]
      ring

theorem list_cauchy_schwarz (ps : List (ℚ × ℚ)) :
    covSum ps ^ 2 ≤ varFst ps * varSnd ps := by
  unfold covSum varFst varSnd
  rw [list_map_sum_range _ (0, 0), list_map_sum_range _ (0, 0),
    list_map_sum_range _ (0, 0)]
  exact Finset.sum_mul_sq_le_sq_mul_sq (Finset.range ps.length)
    (fun i => (ps.getD i (0, 0)).1 - meanFst ps)
    (fun i => (ps.getD i (0, 0)).2 - meanSnd ps)

theorem corrEntry_bounds {xs ys : List (Option ℚ)} {r : ℝ}
    (h : corrEntry xs ys = some r) : -1 ≤ r ∧ r ≤ 1 := by
  rw [corrEntry_eq] at h
  by_cases h1 : (vpairs xs ys).length = 0
  · rw [if_pos h1] at h
    cases h
  · rw [if_neg h1] at h
    by_cases h2 : varFst (vpairs xs ys) * varSnd (vpairs xs ys) = 0
    · rw [if_pos h2] at h
      cases h
    · rw [if_neg h2] at h
      injection h with h
      have hvf : 0 ≤ varFst (vpairs xs ys) := varFst_nonneg _
      have hvs : 0 ≤ varSnd (vpairs xs ys) := varSnd_nonneg _
      have hprodpos : 0 < varFst (vpairs xs ys) * varSnd (vpairs xs ys) :=
        lt_of_le_of_ne (mul_nonneg hvf hvs) (Ne.symm h2)
      have hprodposR : (0 : ℝ) <
          (varFst (vpairs xs ys) : ℝ) * (varSnd (vpairs xs ys) : ℝ) := by
        exact_mod_cast hprodpos
      have hsqrtpos : 0 < Real.sqrt
          ((varFst (vpairs xs ys) : ℝ) * (varSnd (vpairs xs ys) : ℝ)) :=
        Real.sqrt_pos.mpr hprodposR
      have hcs : (covSum (vpairs xs ys) : ℝ) ^ 2 ≤
          (varFst (vpairs xs ys) : ℝ) * (varSnd (vpairs xs ys) : ℝ) := by
        exact_mod_cast list_cauchy_schwarz (vpairs xs ys)
      have habs : |(covSum (vpairs xs ys) : ℝ)| ≤ Real.sqrt
          ((varFst (vpairs xs ys) : ℝ) * (varSnd (vpairs xs ys) : ℝ)) := by
        rw [← Real.sqrt_sq_eq_abs]
        exact Real.sqrt_le_sqrt hcs
      have hr : |r| ≤ 1 := by
        rw [← h, abs_div, abs_of_pos hsqrtpos]
        rw [div_le_one hsqrtpos]
        exact habs
      exact abs_le.mp hr

theorem corr_process_eq (data : Dataset) (cols : List (List Cell))
    (h : mapE (getCol data) corrCols = .ok cols) :
    CorrelationAnalysis.process_data data =
      .ok (⟨corrCols, corrMatrix ((cols.map convertCol).map
              (fun c => c.map cellToOpt))⟩,
           corrMutated data (cols.map convertCol)) := by
  simp only [CorrelationAnalysis.process_data, h, exceptBind_ok]
  rfl

theorem entryAt_corrMatrix {oc : List (List (Option ℚ))} {nm : List String}
    {i j : ℕ} (hi : i < oc.length) (hj : j < oc.length) :
    entryAt ⟨nm, corrMatrix oc⟩ i j
      = corrEntry (oc.getD i []) (oc.getD j []) := by
  unfold entryAt corrMatrix
  simp only
  rw [List.getD_eq_getElem (oc.map (fun x => oc.map (fun y => corrEntry x y)))
    [] (by simpa using hi)]
  rw [List.getElem_map]
  rw [List.getD_eq_getElem _ none (by simpa using hj), List.getElem_map]
  rw [List.getD_eq_getElem oc [] hi, List.getD_eq_getElem oc [] hj]

/-- C2, counterexample to the claim as stated: on an input whose seven
columns are all the constant column `["5", "5"]`, every column has two valid
self-pairs, yet the diagonal entry returned by `DataFrame.corr()` is the
missing value, not 1.0 — the variance is zero, so `nancorr` divides by a
zero divisor and emits NaN. -/
theorem C2_counterexample :
    (CorrelationAnalysis.process_data
        (corrCols.map (fun n => (n, [Cell.str "5", Cell.str "5"])))).map
      (fun r => entryAt r.1 0 0) = .ok none
    ∧ (vpairs [some 5, some 5] [some 5, some 5]).length = 2 := by
  constructor
  · have hcols : mapE (getCol
        (corrCols.map (fun n => (n, [Cell.str "5", Cell.str "5"]))))
        corrCols =
        .ok (corrCols.map (fun _ => [Cell.str "5", Cell.str "5"])) := by
      decide
    rw [corr_process_eq _ _ hcols]
    have hconv : convertCol [Cell.str "5", Cell.str "5"] =
        [Cell.num 5, Cell.num 5] := by
      have h5 : convert_currency (Cell.str "5") = Cell.num 5 := by
        norm_num +decide [convert_currency, cleanCurrency, pyFloat,
          pyFloatAux, trimChars, digitsVal, List.dropWhile, List.takeWhile,
          List.foldl, List.all, List.filter, Char.isWhitespace, digit_toNat_5]
      simp [convertCol, h5]
    have hoc : ((corrCols.map
          (fun _ => [Cell.str "5", Cell.str "5"])).map convertCol).map
          (fun c => c.map cellToOpt) =
        corrCols.map (fun _ => [some 5, some 5]) := by
      simp [List.map_map, Function.comp, hconv, cellToOpt]
    rw [hoc]
    have hlen : (corrCols.map
        (fun _ => ([some 5, some 5] : List (Option ℚ)))).length = 7 := by
      decide
    have hget : (corrCols.map
        (fun _ => ([some 5, some 5] : List (Option ℚ)))).getD 0 [] =
        [some 5, some 5] := by decide
    have hent := @entryAt_corrMatrix
      (corrCols.map (fun _ => ([some 5, some 5] : List (Option ℚ))))
      corrCols 0 0
      (by rw [hlen]; norm_num) (by rw [hlen]; norm_num)
    have hnone : corrEntry ([some 5, some 5] : List (Option ℚ))
        [some 5, some 5] = none := by
      rw [corrEntry_eq]
      have hp : vpairs ([some 5, some 5] : List (Option ℚ))
          [some 5, some 5] = [(5, 5), (5, 5)] := rfl
      rw [hp]
      have hv : varFst [((5 : ℚ), (5 : ℚ)), (5, 5)] = 0 := by
        norm_num [varFst, meanFst]
      rw [if_neg (by norm_num), if_pos (by rw [hv]; ring)]
    simp only [Except.map, hent, hget, hnone]
  · rfl

/-- C2, amended: the Correlation Matrix aggregation returns a square 7x7
dataset indexed and columned by the same seven column names, symmetric
(`M[i][j] = M[j][i]`), computed as pairwise Pearson correlation over
pairwise-complete observations of the normalized columns; every **defined**
entry lies in `[-1, 1]`; each diagonal entry is either `1.0` or missing, and
it equals `1.0` exactly when that column has two distinct valid (normalized,
non-missing) values — for a column with no valid pair or with zero variance
(constant or single-valued), the divisor is zero and the entry is the
missing value, not `1.0`. -/
theorem C2_correlation_matrix_amended :
    ∀ (data : Dataset) (cols : List (List Cell)) (M : CorrOut)
      (d2 : Dataset),
      mapE (getCol data) corrCols = .ok cols →
      CorrelationAnalysis.process_data data = .ok (M, d2) →
        M.names = corrCols
        ∧ M.rows.length = 7
        ∧ (∀ row ∈ M.rows, row.length = 7)
        ∧ (∀ i j, i < 7 → j < 7 → entryAt M i j = entryAt M j i)
        ∧ (∀ i, i < 7 → (entryAt M i i = some 1 ∨ entryAt M i i = none))
        ∧ (∀ i, i < 7 → (entryAt M i i = some 1 ↔
            ∃ a ∈ (((cols.map convertCol).map
                (fun c => c.map cellToOpt)).getD i []).filterMap id,
            ∃ b ∈ (((cols.map convertCol).map
                (fun c => c.map cellToOpt)).getD i []).filterMap id,
              a ≠ b))
        ∧ (∀ i j r, entryAt M i j = some r → -1 ≤ r ∧ r ≤ 1) := by
  intro data cols M d2 hcols hproc
  rw [corr_process_eq data cols hcols] at hproc
  cases hproc
  set oc := (cols.map convertCol).map (fun c => c.map cellToOpt) with hoc
  have h7 : cols.length = 7 := by
    have := mapE_ok_length hcols
    simpa [corrCols] using this
  have hoclen : oc.length = 7 := by
    rw [hoc]
    simp [h7]
  refine ⟨rfl, ?_, ?_, ?_, ?_, ?_, ?_⟩
  · show (corrMatrix oc).length = 7
    unfold corrMatrix
    rw [List.length_map, hoclen]
  · intro row hrow
    rcases List.mem_map.mp hrow with ⟨x, _, rfl⟩
    rw [List.length_map, hoclen]
  · intro i j hi hj
    rw [entryAt_corrMatrix (by rw [hoclen]; exact hi)
        (by rw [hoclen]; exact hj),
      entryAt_corrMatrix (by rw [hoclen]; exact hj)
        (by rw [hoclen]; exact hi)]
    exact corrEntry_symm _ _
  · intro i hi
    rw [entryAt_corrMatrix (by rw [hoclen]; exact hi)
      (by rw [hoclen]; exact hi)]
    exact (corrEntry_diag _).1
  · intro i hi
    rw [entryAt_corrMatrix (by rw [hoclen]; exact hi)
      (by rw [hoclen]; exact hi)]
    exact (corrEntry_diag _).2
  · intro i j r h
    by_cases hi : i < 7
    · by_cases hj : j < 7
      · rw [entryAt_corrMatrix (by rw [hoclen]; exact hi)
          (by rw [hoclen]; exact hj)] at h
        exact corrEntry_bounds h
      · exfalso
        have hrow : entryAt ⟨corrCols, corrMatrix oc⟩ i j = none := by
          unfold entryAt corrMatrix
          simp only
          rw [List.getD_eq_getElem
            (oc.map (fun x => oc.map (fun y => corrEntry x y))) []
            (by rw [List.length_map, hoclen]; exact hi)]
          rw [List.getElem_map]
          apply List.getD_eq_default
          rw [List.length_map, hoclen]
          omega
        rw [hrow] at h
        cases h
    · exfalso
      have houter : (oc.map
          (fun x => oc.map (fun y => corrEntry x y))).getD i [] = [] :=
        List.getD_eq_default _ _
          (by rw [List.length_map, hoclen]; omega)
      have hrow : entryAt ⟨corrCols, corrMatrix oc⟩ i j = none := by
        unfold entryAt corrMatrix
        simp only
        rw [houter]
        rfl
      rw [hrow] at h
      cases h

theorem C2_witness :
    mapE (getCol (corrCols.map (fun n => (n, [Cell.str "1", Cell.str "2"]))))
        corrCols =
      .ok (corrCols.map (fun _ => [Cell.str "1", Cell.str "2"])) ∧
    (CorrOut.mk corrCols (corrMatrix
        (((corrCols.map (fun _ => [Cell.str "1", Cell.str "2"])).map
            convertCol).map (fun c => c.map cellToOpt)))).rows.length = 7 := by
  have hcols : mapE (getCol (corrCols.map
      (fun n => (n, [Cell.str "1", Cell.str "2"])))) corrCols =
      .ok (corrCols.map (fun _ => [Cell.str "1", Cell.str "2"])) := by decide
  have hproc := corr_process_eq _ _ hcols
  exact ⟨hcols, (C2_correlation_matrix_amended _ _ _ _ hcols hproc).2.1⟩
